import Mathlib

/-!
Verification of the agent-debugger core (session daemon + DAP brokering layer)
against its natural-language specification.

The development shallowly embeds the relevant TypeScript source:

* the DAP frame codec of dap-client.ts (processBuffer) over byte lists,
* the request/response correlation maps of dap-client.ts,
* the breakpoint-string grammar of session.ts (parseBreakpoints),
* the session state machine of session.ts (one function per verb, with the
  environment — adapter flows, DAP responses, event arrivals — supplied as
  explicit oracle data).

Machine integers do not overflow in any modelled code path, so numbers are
Nat / Int.  Fallible steps return Option.  External collaborators (adapter
strategies, the DAP peer) are modelled by their interface results, following
the specification's scoping of adapters as external collaborators specified
only by interface.
-/

set_option linter.unusedVariables false

namespace AgentDebugger

/-! ## Byte-level primitives shared by the embeddings

Bytes of the wire stream are modelled as characters: the DAP header region is
decoded as ASCII by the source and the body is carried opaquely, so the
byte/char distinction is immaterial here. -/

abbrev Bytes := List Char

/-- Boolean prefix test on byte lists (JS String.prototype.startsWith /
Buffer pattern matching). -/
def isPrefixL : Bytes → Bytes → Bool
  | [], _ => true
  | _ :: _, [] => false
  | a :: as, b :: bs => a == b && isPrefixL as bs

/-- First index at which pat occurs in s (Buffer.prototype.indexOf; none
models the -1 result). -/
def findPat? (pat : Bytes) : Bytes → Option Nat
  | [] => if pat.isEmpty then some 0 else none
  | b :: bs => if isPrefixL pat (b :: bs) then some 0 else (findPat? pat bs).map (· + 1)

/-- JS String.prototype.split with a single-character separator. -/
def splitOnChar (sep : Char) : Bytes → List Bytes
  | [] => [[]]
  | c :: cs =>
    match splitOnChar sep cs with
    | [] => [[]]
    | h :: t => if c == sep then [] :: h :: t else (c :: h) :: t

/-- JS String.prototype.split with the two-character separator CRLF, the only
multi-character separator the source uses (header.split of processBuffer). -/
def splitCRLF : Bytes → List Bytes
  | [] => [[]]
  | [c] => [[c]]
  | c :: d :: cs =>
    if c == '\r' && d == '\n' then
      [] :: splitCRLF cs
    else
      match splitCRLF (d :: cs) with
      | [] => [[]]
      | h :: t => (c :: h) :: t

/-- JS whitespace test (the subset that can reach the modelled call sites). -/
def isJSSpace (c : Char) : Bool := c == ' ' || c == '\t' || c == '\n' || c == '\r'

/-- JS String.prototype.trim. -/
def trimJS (s : Bytes) : Bytes :=
  ((s.dropWhile isJSSpace).reverse.dropWhile isJSSpace).reverse

/-- Value of a run of decimal digits, most significant first. -/
def digitsVal (s : Bytes) : Nat := s.foldl (fun acc c => 10 * acc + (c.toNat - 48)) 0

/-- JS parseInt(str, 10): skip leading whitespace, an optional sign, then take
the longest decimal-digit prefix; none models the NaN result. -/
def parseIntJS (s : Bytes) : Option Int :=
  let t := s.dropWhile isJSSpace
  match t with
  | '-' :: rest =>
    let ds := rest.takeWhile Char.isDigit
    if ds.isEmpty then none else some (-(digitsVal ds : Int))
  | '+' :: rest =>
    let ds := rest.takeWhile Char.isDigit
    if ds.isEmpty then none else some (digitsVal ds : Int)
  | _ =>
    let ds := t.takeWhile Char.isDigit
    if ds.isEmpty then none else some (digitsVal ds : Int)

/-- Substring test, via findPat?. -/
def containsSub (pat s : Bytes) : Bool := (findPat? pat s).isSome

/-! ## DAP frame parser (dap-client.ts, processBuffer)

processBuffer repeatedly: finds the first CRLFCRLF, scans the header lines for
a case-insensitive Content-Length, and when the full body is buffered slices
it off and dispatches its JSON.  JSON.parse is injective on body texts, so the
embedding tracks the dispatched body byte lists instead of decoded values. -/

/-- The CRLFCRLF separator between a DAP header block and its body. -/
def crlf2 : Bytes := ['\r', '\n', '\r', '\n']

/-- The lowercase header-line prefix matched by processBuffer. -/
def contentLengthKey : Bytes := "content-length:".toList

/-- The header scan of processBuffer: iterate over the CRLF-separated header
lines, recording the parsed value of the last line whose lowercased form
starts with content-length:.  (When parseInt yields NaN the source stores NaN
and later crashes in JSON.parse — a connection-fatal path no well-formed
stream reaches; the model returns none there.) -/
def parseContentLength (header : Bytes) : Option Int :=
  (splitCRLF header).foldl
    (fun acc line =>
      if isPrefixL contentLengthKey (line.map Char.toLower) then
        match (splitOnChar ':' line).get? 1 with
        | some part => parseIntJS (trimJS part)
        | none => acc
      else acc)
    none

/-- One iteration of the processBuffer loop: extract the first complete frame
of the buffer, returning its body and the remaining buffer, or none when the
loop would return (incomplete header, missing Content-Length, or incomplete
body).  A negative Content-Length (unreachable from well-formed streams) is
connection-fatal in the source and is modelled as a stall. -/
def stepFrame (s : Bytes) : Option (Bytes × Bytes) :=
  match findPat? crlf2 s with
  | none => none
  | some headerEnd =>
    match parseContentLength (s.take headerEnd) with
    | none => none
    | some n =>
      if n < 0 then none
      else
        let bodyStart := headerEnd + 4
        if s.length < bodyStart + n.toNat then none
        else some ((s.drop bodyStart).take n.toNat, s.drop (bodyStart + n.toNat))

theorem isPrefixL_length {pat s : Bytes} (h : isPrefixL pat s = true) :
    pat.length ≤ s.length := by
  induction pat generalizing s with
  | nil => simp
  | cons a as ih =>
    cases s with
    | nil => simp [isPrefixL] at h
    | cons b bs =>
      simp only [isPrefixL, Bool.and_eq_true] at h
      simpa using ih h.2

theorem findPat?_le_length {pat s : Bytes} {i : Nat} (hpat : pat ≠ [])
    (h : findPat? pat s = some i) : i + pat.length ≤ s.length := by
  induction s generalizing i with
  | nil =>
    simp only [findPat?, List.isEmpty_iff] at h
    split at h
    · exact absurd (by assumption) hpat
    · cases h
  | cons b bs ih =>
    simp only [findPat?] at h
    split at h
    · cases h
      have := isPrefixL_length (by assumption)
      omega
    · cases hfind : findPat? pat bs with
      | none => simp [hfind] at h
      | some j =>
        simp only [hfind, Option.map_some] at h
        cases h
        have := ih hfind
        simp only [List.length_cons]
        omega

theorem stepFrame_length {s b r : Bytes} (h : stepFrame s = some (b, r)) :
    r.length < s.length := by
  unfold stepFrame at h
  cases hfind : findPat? crlf2 s with
  | none => simp [hfind] at h
  | some headerEnd =>
    simp only [hfind] at h
    cases hcl : parseContentLength (s.take headerEnd) with
    | none => simp [hcl] at h
    | some n =>
      simp only [hcl] at h
      split at h
      · cases h
      · split at h
        · cases h
        · simp only [Option.some_inj, Prod.mk.injEq] at h
          have hlen : ¬ s.length < headerEnd + 4 + n.toNat := by assumption
          have hr : r = s.drop (headerEnd + 4 + n.toNat) := h.2.symm
          subst hr
          simp only [List.length_drop]
          omega

/-- The processBuffer loop: consume complete frames from the front of the
buffer until none remains, returning the dispatched bodies in order and the
retained leftover bytes. -/
def consumeFrames (s : Bytes) : List Bytes × Bytes :=
  match h : stepFrame s with
  | none => ([], s)
  | some (b, r) =>
    let p := consumeFrames r
    (b :: p.1, p.2)
termination_by s.length
decreasing_by exact stepFrame_length h

/-- The data-event handler: append the chunk to the accumulator and run
processBuffer; folded over a chunk sequence starting from the empty buffer.
The first component collects all dispatched bodies in order. -/
def processChunks (chunks : List Bytes) : List Bytes × Bytes :=
  chunks.foldl
    (fun acc c =>
      let p := consumeFrames (acc.2 ++ c)
      (acc.1 ++ p.1, p.2))
    ([], [])

/-- A well-formed DAP frame: a header field name that lowercases to
content-length, a textual length value that parseInt-trims to the body
length, and the body bytes.  The name and value may not contain CR or a colon
(for the name this already follows from the lowercase condition). -/
structure Frame where
  name : Bytes
  lenStr : Bytes
  body : Bytes

/-- The header line of a frame as it appears on the wire. -/
def Frame.headerLine (f : Frame) : Bytes := f.name ++ ':' :: f.lenStr

/-- Wire encoding of a frame: header line, CRLFCRLF, body. -/
def encodeFrame (f : Frame) : Bytes := f.headerLine ++ crlf2 ++ f.body

/-- Well-formedness of a frame per the specification: the header field is a
case variant of Content-Length and its value parses to the body length. -/
def Frame.WF (f : Frame) : Prop :=
  f.name.map Char.toLower = ("content-length".toList : Bytes) ∧
  (∀ c ∈ f.lenStr, c ≠ '\r' ∧ c ≠ ':') ∧
  parseIntJS (trimJS f.lenStr) = some (f.body.length : Int)

instance (f : Frame) : Decidable f.WF := by
  unfold Frame.WF
  infer_instance

/-- The concatenated wire encoding of a frame sequence. -/
def encodeFrames (fs : List Frame) : Bytes := (fs.map encodeFrame).flatten

/-- The leftover allowed at the end of a stream: nothing, or a strict prefix
of one further well-formed frame. -/
def IncompleteRest (rest : Bytes) : Prop :=
  rest = [] ∨ ∃ g : Frame, g.WF ∧ isPrefixL rest (encodeFrame g) = true ∧
    rest.length < (encodeFrame g).length

theorem isPrefixL_iff_take {p s : Bytes} : isPrefixL p s = true ↔ s.take p.length = p := by
  induction p generalizing s with
  | nil => simp [isPrefixL]
  | cons a as ih =>
    cases s with
    | nil => simp [isPrefixL]
    | cons b bs =>
      simp only [isPrefixL, Bool.and_eq_true, beq_iff_eq, List.length_cons, List.take_succ_cons,
        List.cons.injEq, ih]
      tauto

theorem isPrefixL_append_self (p t : Bytes) : isPrefixL p (p ++ t) = true := by
  rw [isPrefixL_iff_take]
  exact List.take_left p t

theorem isPrefixL_append_of_le {p s : Bytes} (t : Bytes) (h : p.length ≤ s.length) :
    isPrefixL p (s ++ t) = isPrefixL p s := by
  have htake : (s ++ t).take p.length = s.take p.length := by
    rw [List.take_append_eq_append_take]
    have h0 : p.length - s.length = 0 := by omega
    simp [h0]
  cases hb : isPrefixL p s with
  | true =>
    rw [isPrefixL_iff_take] at hb
    rw [isPrefixL_iff_take, htake]
    exact hb
  | false =>
    cases hb2 : isPrefixL p (s ++ t) with
    | false => rfl
    | true =>
      rw [isPrefixL_iff_take, htake, ← isPrefixL_iff_take] at hb2
      exact absurd hb2 (by simp [hb])

theorem isPrefixL_append_weaken {p s : Bytes} (t : Bytes) (h : isPrefixL p s = true) :
    isPrefixL p (s ++ t) = true := by
  rw [isPrefixL_append_of_le t (isPrefixL_length h)]
  exact h

theorem findPat?_spec {pat s : Bytes} {i : Nat} (h : findPat? pat s = some i) :
    isPrefixL pat (s.drop i) = true := by
  induction s generalizing i with
  | nil =>
    simp only [findPat?] at h
    split at h
    · cases h
      simp_all [List.isEmpty_iff, isPrefixL]
    · cases h
  | cons b bs ih =>
    simp only [findPat?] at h
    split at h
    · cases h
      simpa using by assumption
    · cases hfind : findPat? pat bs with
      | none => simp [hfind] at h
      | some j =>
        simp only [hfind, Option.map_some] at h
        cases h
        simpa using ih hfind

theorem findPat?_append_left {pat s t : Bytes} {i : Nat} (hpat : pat ≠ [])
    (h : findPat? pat s = some i) : findPat? pat (s ++ t) = some i := by
  induction s generalizing i with
  | nil =>
    simp only [findPat?, List.isEmpty_iff] at h
    split at h
    · exact absurd (by assumption) hpat
    · cases h
  | cons b bs ih =>
    simp only [findPat?] at h
    by_cases hb : isPrefixL pat (b :: bs) = true
    · rw [if_pos hb] at h
      cases h
      have hb2 : isPrefixL pat ((b :: bs) ++ t) = true := isPrefixL_append_weaken t hb
      simp only [List.cons_append] at hb2
      simp only [List.cons_append, findPat?, List.append_eq, if_pos hb2]
    · rw [if_neg hb] at h
      cases hfind : findPat? pat bs with
      | none => simp [hfind] at h
      | some j =>
        simp only [hfind, Option.map_some] at h
        cases h
        have hlen : pat.length ≤ bs.length := by
          have h4 := findPat?_le_length hpat hfind
          omega
        have hb2 : isPrefixL pat (b :: (bs ++ t)) = false := by
          have heq : isPrefixL pat ((b :: bs) ++ t) = isPrefixL pat (b :: bs) :=
            isPrefixL_append_of_le t (by simp only [List.length_cons]; omega)
          simp only [List.cons_append] at heq
          rw [heq]
          exact Bool.eq_false_iff.mpr hb
        have hcond : ¬ (isPrefixL pat (b :: (bs ++ t)) = true) := by simp [hb2]
        simp only [List.cons_append, findPat?, List.append_eq]
        rw [if_neg hcond, ih hfind]
        rfl

/-- Occurrences of CRLFCRLF shift over a CR-free prefix. -/
theorem findPat?_crlf2_prepend {pre suf : Bytes} (hpre : ∀ c ∈ pre, c ≠ '\r') :
    findPat? crlf2 (pre ++ suf) = (findPat? crlf2 suf).map (· + pre.length) := by
  induction pre with
  | nil =>
    simp only [List.nil_append, List.length_nil]
    cases findPat? crlf2 suf <;> simp
  | cons c cs ih =>
    have hc : c ≠ '\r' := hpre c (by simp)
    simp only [List.cons_append, findPat?]
    rw [if_neg]
    · simp only [List.append_eq]
      rw [ih (fun x hx => hpre x (by simp [hx]))]
      cases findPat? crlf2 suf with
      | none => rfl
      | some j =>
        simp only [Option.map_some, Option.map_map, List.length_cons, Function.comp_apply,
          Option.some_inj]
        rfl
    · simp only [crlf2, isPrefixL, Bool.and_eq_true, beq_iff_eq, Bool.not_eq_true]
      intro hcontra
      exact hc hcontra.1.symm

theorem findPat?_crlf2_start (x : Bytes) : findPat? crlf2 (crlf2 ++ x) = some 0 := by
  simp only [crlf2, List.cons_append, List.nil_append, findPat?]
  rw [if_pos]
  simp [isPrefixL]

theorem isPrefixL_crlf2_head {u : Bytes} (h : isPrefixL crlf2 u = true) :
    u.head? = some '\r' := by
  cases u with
  | nil => simp [crlf2, isPrefixL] at h
  | cons x xs =>
    simp only [crlf2, isPrefixL, Bool.and_eq_true, beq_iff_eq] at h
    simp [h.1.symm]

theorem Frame.name_chars {f : Frame} (hWF : f.WF) : ∀ c ∈ f.name, c ≠ '\r' ∧ c ≠ ':' := by
  intro c hc
  have hmem : Char.toLower c ∈ ("content-length".toList : Bytes) := by
    rw [← hWF.1]
    exact List.mem_map_of_mem Char.toLower hc
  constructor
  · rintro rfl
    rw [show Char.toLower '\r' = '\r' from rfl] at hmem
    exact absurd hmem (by decide)
  · rintro rfl
    rw [show Char.toLower ':' = ':' from rfl] at hmem
    exact absurd hmem (by decide)

theorem Frame.headerLine_no_cr {f : Frame} (hWF : f.WF) : ∀ c ∈ f.headerLine, c ≠ '\r' := by
  intro c hc
  simp only [Frame.headerLine, List.mem_append, List.mem_cons] at hc
  rcases hc with hc | hc | hc
  · exact (Frame.name_chars hWF c hc).1
  · subst hc; decide
  · exact (hWF.2.1 c hc).1

theorem splitCRLF_no_cr {s : Bytes} (h : ∀ c ∈ s, c ≠ '\r') : splitCRLF s = [s] := by
  induction s with
  | nil => rfl
  | cons c cs ih =>
    cases cs with
    | nil => rfl
    | cons d ds =>
      have hc : c ≠ '\r' := h c (by simp)
      rw [splitCRLF, if_neg (by simp [hc])]
      rw [ih (fun x hx => h x (by simp [List.mem_cons] at hx ⊢; tauto))]

theorem splitOnChar_ne_nil (sep : Char) (s : Bytes) : splitOnChar sep s ≠ [] := by
  induction s with
  | nil => simp [splitOnChar]
  | cons c cs ih =>
    rw [splitOnChar]
    cases hb : splitOnChar sep cs with
    | nil => simp
    | cons hd tl =>
      by_cases hc : (c == sep) = true <;> simp [hc]

theorem splitOnChar_sep_free {sep : Char} {s : Bytes} (h : ∀ c ∈ s, c ≠ sep) :
    splitOnChar sep s = [s] := by
  induction s with
  | nil => rfl
  | cons c cs ih =>
    have hc : (c == sep) = false := by simpa using h c (by simp)
    rw [splitOnChar, ih (fun x hx => h x (by simp [hx]))]
    simp [hc]

theorem splitOnChar_sep_free_append {sep : Char} {a : Bytes} (b : Bytes)
    (h : ∀ c ∈ a, c ≠ sep) :
    splitOnChar sep (a ++ sep :: b) = a :: splitOnChar sep b := by
  induction a with
  | nil =>
    rw [List.nil_append, splitOnChar]
    cases hb : splitOnChar sep b with
    | nil => exact absurd hb (splitOnChar_ne_nil sep b)
    | cons hd tl => simp
  | cons c cs ih =>
    have hc : (c == sep) = false := by simpa using h c (by simp)
    rw [List.cons_append, splitOnChar, ih (fun x hx => h x (by simp [hx]))]
    simp [hc]

/-- The header scan succeeds on a well-formed header line. -/
theorem parseContentLength_headerLine {f : Frame} (hWF : f.WF) :
    parseContentLength f.headerLine = some (f.body.length : Int) := by
  have hsplit : splitCRLF f.headerLine = [f.headerLine] :=
    splitCRLF_no_cr (Frame.headerLine_no_cr hWF)
  have hlower : f.headerLine.map Char.toLower =
      ("content-length".toList : Bytes) ++ ':' :: f.lenStr.map Char.toLower := by
    simp only [Frame.headerLine, List.map_append, List.map_cons, hWF.1]
    rfl
  have hpref : isPrefixL contentLengthKey (f.headerLine.map Char.toLower) = true := by
    rw [hlower]
    have hkey : contentLengthKey = ("content-length".toList : Bytes) ++ [':'] := by decide
    rw [hkey]
    have := isPrefixL_append_self (("content-length".toList : Bytes) ++ [':'])
      (f.lenStr.map Char.toLower)
    simpa using this
  have hparts : splitOnChar ':' f.headerLine = [f.name, f.lenStr] := by
    rw [Frame.headerLine,
      splitOnChar_sep_free_append f.lenStr (fun c hc => (Frame.name_chars hWF c hc).2),
      splitOnChar_sep_free (fun c hc => (hWF.2.1 c hc).2)]
  rw [parseContentLength, hsplit]
  simp only [List.foldl_cons, List.foldl_nil, hpref, if_true, hparts]
  simpa using hWF.2.2

/-- Parsing a buffer that starts with a complete well-formed frame yields its
body and leaves exactly the trailing bytes. -/
theorem stepFrame_encode {f : Frame} (hWF : f.WF) (t : Bytes) :
    stepFrame (encodeFrame f ++ t) = some (f.body, t) := by
  have hassoc : encodeFrame f ++ t = f.headerLine ++ (crlf2 ++ (f.body ++ t)) := by
    simp [encodeFrame, List.append_assoc]
  have hfind : findPat? crlf2 (encodeFrame f ++ t) = some f.headerLine.length := by
    rw [hassoc, findPat?_crlf2_prepend (Frame.headerLine_no_cr hWF),
      findPat?_crlf2_start]
    simp
  have htake : (encodeFrame f ++ t).take f.headerLine.length = f.headerLine := by
    rw [hassoc, List.take_append_eq_append_take]
    simp
  have hneg : ¬ ((f.body.length : Int) < 0) := not_lt.mpr (Int.natCast_nonneg _)
  have hlen4 : (f.headerLine ++ crlf2).length = f.headerLine.length + 4 := by
    simp [crlf2]
  have hdrop : (encodeFrame f ++ t).drop (f.headerLine.length + 4) = f.body ++ t := by
    have hsplit2 : encodeFrame f ++ t = (f.headerLine ++ crlf2) ++ (f.body ++ t) := by
      simp [encodeFrame, List.append_assoc]
    rw [hsplit2, ← hlen4, List.drop_left]
  have hguard : ¬ ((encodeFrame f ++ t).length < f.headerLine.length + 4 + f.body.length) := by
    simp only [encodeFrame, crlf2, List.length_append, List.length_cons, List.length_nil]
    omega
  have hbody : ((encodeFrame f ++ t).drop (f.headerLine.length + 4)).take f.body.length
      = f.body := by
    rw [hdrop, List.take_left]
  have hrest : (encodeFrame f ++ t).drop (f.headerLine.length + 4 + f.body.length) = t := by
    have henc : (encodeFrame f).length = f.headerLine.length + 4 + f.body.length := by
      simp [encodeFrame, crlf2]
      omega
    rw [← henc, List.drop_left]
  simp only [stepFrame, hfind, htake, parseContentLength_headerLine hWF, Int.toNat_natCast]
  rw [if_neg hneg, if_neg hguard, hbody, hrest]

/-- A frame extraction that succeeds on a buffer is unchanged by appending
further bytes. -/
theorem stepFrame_append {s t b r : Bytes} (h : stepFrame s = some (b, r)) :
    stepFrame (s ++ t) = some (b, r ++ t) := by
  unfold stepFrame at h
  cases hfind : findPat? crlf2 s with
  | none => simp [hfind] at h
  | some i =>
    simp only [hfind] at h
    cases hcl : parseContentLength (s.take i) with
    | none => simp [hcl] at h
    | some n =>
      simp only [hcl] at h
      split at h
      · cases h
      · split at h
        · cases h
        · simp only [Option.some_inj, Prod.mk.injEq] at h
          obtain ⟨hb, hr⟩ := h
          have hneg : ¬ (n < 0) := by assumption
          have hguard : ¬ (s.length < i + 4 + n.toNat) := by assumption
          have hi : i + 4 ≤ s.length := by
            have h4 := findPat?_le_length (by decide : crlf2 ≠ []) hfind
            simpa [crlf2] using h4
          have hfind2 : findPat? crlf2 (s ++ t) = some i :=
            findPat?_append_left (by decide) hfind
          have htake2 : (s ++ t).take i = s.take i := by
            rw [List.take_append_eq_append_take]
            have h0 : i - s.length = 0 := by omega
            simp [h0]
          have hguard2 : ¬ ((s ++ t).length < i + 4 + n.toNat) := by
            simp only [List.length_append]
            omega
          have hdrop4 : (s ++ t).drop (i + 4) = s.drop (i + 4) ++ t := by
            rw [List.drop_append_eq_append_drop]
            have h0 : i + 4 - s.length = 0 := by omega
            simp [h0]
          have hbody2 : ((s ++ t).drop (i + 4)).take n.toNat
              = (s.drop (i + 4)).take n.toNat := by
            rw [hdrop4, List.take_append_eq_append_take]
            have h0 : n.toNat - (s.drop (i + 4)).length = 0 := by
              simp only [List.length_drop]
              omega
            rw [h0]
            simp
          have hrest2 : (s ++ t).drop (i + 4 + n.toNat) = s.drop (i + 4 + n.toNat) ++ t := by
            rw [List.drop_append_eq_append_drop]
            have h0 : i + 4 + n.toNat - s.length = 0 := by omega
            simp [h0]
          simp only [stepFrame, hfind2, htake2, hcl]
          rw [if_neg hneg, if_neg hguard2, hbody2, hrest2, hb, hr]

theorem consumeFrames_of_none {s : Bytes} (h : stepFrame s = none) :
    consumeFrames s = ([], s) := by
  rw [consumeFrames]
  split
  · rfl
  · rename_i b r heq
    rw [h] at heq
    cases heq

theorem consumeFrames_of_some {s b r : Bytes} (h : stepFrame s = some (b, r)) :
    consumeFrames s = (b :: (consumeFrames r).1, (consumeFrames r).2) := by
  rw [consumeFrames]
  split
  · rename_i heq
    rw [h] at heq
    cases heq
  · rename_i b2 r2 heq
    rw [h] at heq
    simp only [Option.some_inj, Prod.mk.injEq] at heq
    rw [heq.1, heq.2]

theorem stepFrame_nil : stepFrame [] = none := rfl

/-- After processBuffer returns, the retained buffer holds no complete frame. -/
theorem stepFrame_consumeFrames (s : Bytes) : stepFrame (consumeFrames s).2 = none := by
  have H : ∀ n (s : Bytes), s.length = n → stepFrame (consumeFrames s).2 = none := by
    intro n
    induction n using Nat.strong_induction_on with
    | _ n ih =>
      intro s hs
      cases h : stepFrame s with
      | none => rw [consumeFrames_of_none h]; exact h
      | some p =>
        obtain ⟨b, r⟩ := p
        rw [consumeFrames_of_some h]
        exact ih r.length (hs ▸ stepFrame_length h) r rfl
  exact H s.length s rfl

/-- Parsing is incremental: feeding extra bytes after a buffer is equivalent
to parsing the buffer, then parsing its leftover with the extra bytes. -/
theorem consumeFrames_append (s t : Bytes) :
    consumeFrames (s ++ t) =
      ((consumeFrames s).1 ++ (consumeFrames ((consumeFrames s).2 ++ t)).1,
        (consumeFrames ((consumeFrames s).2 ++ t)).2) := by
  have H : ∀ n (s : Bytes), s.length = n →
      consumeFrames (s ++ t) =
        ((consumeFrames s).1 ++ (consumeFrames ((consumeFrames s).2 ++ t)).1,
          (consumeFrames ((consumeFrames s).2 ++ t)).2) := by
    intro n
    induction n using Nat.strong_induction_on with
    | _ n ih =>
      intro s hs
      cases h : stepFrame s with
      | none =>
        rw [consumeFrames_of_none h]
        simp
      | some p =>
        obtain ⟨b, r⟩ := p
        rw [consumeFrames_of_some h,
          consumeFrames_of_some (stepFrame_append h)]
        rw [ih r.length (hs ▸ stepFrame_length h) r rfl]
        simp
  exact H s.length s rfl

/-- Chunked feeding dispatches the same bodies as one-shot parsing of the
whole byte stream, with the same leftover. -/
theorem processChunks_eq_consumeFrames (chunks : List Bytes) :
    processChunks chunks = consumeFrames chunks.flatten := by
  have H : ∀ (cs : List Bytes) (acc : List Bytes) (buf : Bytes),
      stepFrame buf = none →
      cs.foldl (fun a c => let p := consumeFrames (a.2 ++ c); (a.1 ++ p.1, p.2)) (acc, buf) =
        (acc ++ (consumeFrames (buf ++ cs.flatten)).1,
          (consumeFrames (buf ++ cs.flatten)).2) := by
    intro cs
    induction cs with
    | nil =>
      intro acc buf hq
      simp [consumeFrames_of_none hq]
    | cons c cs ih =>
      intro acc buf hq
      simp only [List.foldl_cons]
      rw [ih (acc ++ (consumeFrames (buf ++ c)).1) (consumeFrames (buf ++ c)).2
        (stepFrame_consumeFrames (buf ++ c))]
      rw [List.flatten_cons, ← List.append_assoc, consumeFrames_append (buf ++ c) cs.flatten]
      simp
  have h0 : stepFrame ([] : Bytes) = none := stepFrame_nil
  rw [processChunks, H chunks [] [] h0]
  simp

/-- A strict prefix of a well-formed frame parses to nothing and is retained
unchanged. -/
theorem stepFrame_incomplete {rest : Bytes} (h : IncompleteRest rest) :
    stepFrame rest = none := by
  rcases h with rfl | ⟨g, hWF, hpre, hlt⟩
  · exact stepFrame_nil
  have hrest_take : rest = (encodeFrame g).take rest.length := by
    rw [isPrefixL_iff_take] at hpre
    exact hpre.symm
  have henc : (encodeFrame g).length = g.headerLine.length + 4 + g.body.length := by
    simp [encodeFrame, crlf2]
    omega
  by_cases hlen : rest.length < g.headerLine.length + 4
  · -- not even the full header block is present: no CRLFCRLF occurrence
    cases hfind : findPat? crlf2 rest with
    | none => rw [stepFrame, hfind]
    | some i =>
      exfalso
      have hi4 : i + 4 ≤ rest.length := by
        have h4 := findPat?_le_length (by decide : crlf2 ≠ []) hfind
        simpa [crlf2] using h4
      have hiH : i < g.headerLine.length := by omega
      have hheadr := isPrefixL_crlf2_head (findPat?_spec hfind)
      rw [List.head?_drop] at hheadr
      have h1 : rest[i]? = ((encodeFrame g).take rest.length)[i]? := by
        conv_lhs => rw [hrest_take]
      have h2 : ((encodeFrame g).take rest.length)[i]? = (encodeFrame g)[i]? := by
        rw [List.getElem?_take, if_pos (by omega)]
      have h3 : (encodeFrame g)[i]? = g.headerLine[i]? := by
        rw [encodeFrame]
        rw [List.getElem?_append_left (show i < (g.headerLine ++ crlf2).length by
          simp [crlf2]; omega)]
        rw [List.getElem?_append_left hiH]
      have h4 : g.headerLine[i]? = some g.headerLine[i] := List.getElem?_eq_getElem hiH
      have hcr : g.headerLine[i] = '\r' := by
        rw [h1, h2, h3, h4] at hheadr
        exact Option.some_inj.mp hheadr
      exact (Frame.headerLine_no_cr hWF _ (List.getElem_mem hiH)) hcr
  · -- full header present, but the body is incomplete: the length guard fails
    have hl4 : (g.headerLine ++ crlf2).length = g.headerLine.length + 4 := by simp [crlf2]
    have hdecomp : rest = (g.headerLine ++ crlf2) ++
        g.body.take (rest.length - (g.headerLine.length + 4)) := by
      conv_lhs => rw [hrest_take]
      rw [encodeFrame, List.take_append_eq_append_take,
        List.take_of_length_le (by rw [hl4]; omega), hl4]
    have hfind : findPat? crlf2 rest = some g.headerLine.length := by
      conv_lhs => rw [hdecomp]
      rw [List.append_assoc, findPat?_crlf2_prepend (Frame.headerLine_no_cr hWF),
        findPat?_crlf2_start]
      simp
    have htake : rest.take g.headerLine.length = g.headerLine := by
      conv_lhs => rw [hdecomp]
      rw [List.append_assoc, List.take_append_eq_append_take]
      simp
    have hguard : rest.length < g.headerLine.length + 4 + g.body.length := by omega
    have hneg : ¬ ((g.body.length : Int) < 0) := not_lt.mpr (Int.natCast_nonneg _)
    simp only [stepFrame, hfind, htake, parseContentLength_headerLine hWF, Int.toNat_natCast]
    rw [if_neg hneg, if_pos hguard]

/-- The dispatched bodies of a well-formed frame stream, one-shot. -/
theorem consumeFrames_encodeFrames (frames : List Frame) (hWF : ∀ f ∈ frames, f.WF)
    (rest : Bytes) (hrest : IncompleteRest rest) :
    consumeFrames (encodeFrames frames ++ rest) = (frames.map Frame.body, rest) := by
  induction frames with
  | nil =>
    simp only [encodeFrames, List.map_nil, List.flatten_nil, List.nil_append]
    exact consumeFrames_of_none (stepFrame_incomplete hrest)
  | cons f fs ih =>
    have hf : f.WF := hWF f (by simp)
    have hencs : encodeFrames (f :: fs) ++ rest = encodeFrame f ++ (encodeFrames fs ++ rest) := by
      simp [encodeFrames, List.append_assoc]
    rw [hencs, consumeFrames_of_some (stepFrame_encode hf _)]
    rw [ih (fun g hg => hWF g (by simp [hg]))]
    simp

/-- C2: for every sequence of well-formed DAP frames (Content-Length header in
any casing, value parsing to the body length, followed by exactly that many
body bytes) and for every way of splitting the concatenated byte stream into
chunks, feeding the chunks to the buffer-processing loop dispatches exactly
the bodies of the frame sequence, in order, with no loss or duplication, and
retains the leftover bytes of an incomplete trailing frame. -/
theorem c2_chunked_frame_reassembly (frames : List Frame) (hWF : ∀ f ∈ frames, f.WF)
    (rest : Bytes) (hrest : IncompleteRest rest) (chunks : List Bytes)
    (hchunks : chunks.flatten = encodeFrames frames ++ rest) :
    processChunks chunks = (frames.map Frame.body, rest) := by
  rw [processChunks_eq_consumeFrames, hchunks]
  exact consumeFrames_encodeFrames frames hWF rest hrest

/-- A concrete well-formed frame with canonical header casing. -/
def exFrame1 : Frame := ⟨"Content-Length".toList, " 2".toList, "42".toList⟩

/-- A concrete well-formed frame with mixed header casing. -/
def exFrame2 : Frame := ⟨"cOnTent-LENGTH".toList, "11".toList, "hello world".toList⟩

/-- Witness for C2: a two-frame stream with mixed header casing, cut at chunk
boundaries that split a header, a body, and the trailing partial frame. -/
theorem c2_witness :
    processChunks ["Content-Length: 2\r".toList, "\n\r\n42cOnTent-LENGTH:11\r\n\r\nhel".toList,
        "lo worldContent-Le".toList] =
      (["42".toList, "hello world".toList], "Content-Le".toList) := by
  have h := c2_chunked_frame_reassembly [exFrame1, exFrame2] (by decide)
    ("Content-Le".toList) (Or.inr ⟨exFrame1, by decide, by decide, by decide⟩)
    ["Content-Length: 2\r".toList, "\n\r\n42cOnTent-LENGTH:11\r\n\r\nhel".toList,
      "lo worldContent-Le".toList] (by decide)
  simpa using h

/-! ## DAP request/response correlation (dap-client.ts)

The client keeps two correlation maps keyed by seq: pending (synchronous
request()) and asyncResponses (requestAsync / waitForResponse deferreds).
The embedding models the maps as association structures in insertion order;
a deferred slot carries none while unresolved and some resp once settled. -/

/-- A DAP response, reduced to the fields the correlation logic reads. -/
structure DAPResp where
  request_seq : Nat
  success : Bool
deriving DecidableEq, Repr

/-- Correlation state of the DAP client: the seqs with a pending synchronous
entry, and the deferred slots of async requests. -/
structure ClientState where
  pending : List Nat
  asyncSlots : List (Nat × Option DAPResp)
deriving DecidableEq, Repr

/-- Map lookup on the deferred slots (Map.prototype.get). -/
def lookupSlot (seq : Nat) : List (Nat × Option DAPResp) → Option (Option DAPResp)
  | [] => none
  | (k, v) :: rest => if k = seq then some v else lookupSlot seq rest

/-- deferred.resolve(resp): settle every unresolved slot with this seq; a
slot that already settled keeps its first value (promise semantics). -/
def resolveSlot (seq : Nat) (v : DAPResp) (slots : List (Nat × Option DAPResp)) :
    List (Nat × Option DAPResp) :=
  slots.map (fun p => if p.1 = seq ∧ p.2 = none then (p.1, some v) else p)

/-- Map.prototype.delete on the deferred slots. -/
def eraseSlot (seq : Nat) (slots : List (Nat × Option DAPResp)) :
    List (Nat × Option DAPResp) :=
  slots.filter (fun p => p.1 != seq)

/-- request(): allocate the seq and store the pending entry. -/
def sendRequest (cs : ClientState) (seq : Nat) : ClientState :=
  { cs with pending := cs.pending ++ [seq] }

/-- requestAsync(): allocate the seq and store an unresolved deferred slot. -/
def sendRequestAsync (cs : ClientState) (seq : Nat) : ClientState :=
  { cs with asyncSlots := cs.asyncSlots ++ [(seq, none)] }

/-- The timeout callback inside request(): delete the pending entry and
reject the caller. -/
def requestTimeoutFires (cs : ClientState) (seq : Nat) : ClientState :=
  { cs with pending := cs.pending.filter (fun k => k != seq) }

/-- dispatch() on an inbound response: resolve a matching deferred (without
deleting it — the comment defers cleanup to waitForResponse), then resolve
and delete a matching pending entry.  The second component is the response
delivered to a synchronous request() caller, if any. -/
def dispatchResponse (cs : ClientState) (resp : DAPResp) : ClientState × Option DAPResp :=
  let slots :=
    if (lookupSlot resp.request_seq cs.asyncSlots).isSome then
      resolveSlot resp.request_seq resp cs.asyncSlots
    else cs.asyncSlots
  if resp.request_seq ∈ cs.pending then
    ({ pending := cs.pending.filter (fun k => k != resp.request_seq), asyncSlots := slots },
      some resp)
  else
    ({ cs with asyncSlots := slots }, none)

/-- Outcome of waitForResponse at its caller. -/
inductive WaitOutcome
  | ok (v : DAPResp)
  | errUnknownSeq
  | errTimeout
deriving DecidableEq, Repr

/-- waitForResponse(seq, timeout).  The arrival parameter is the response
that settles this deferred before the timer fires, if any (by construction of
dispatch() its request_seq equals seq).  On an unknown seq the call throws;
on a settled deferred it returns the value and deletes the slot; on a timeout
the awaited race rejects, so the delete that follows the await is never
reached and the slot survives. -/
def waitForResponse (cs : ClientState) (seq : Nat) (arrival : Option DAPResp) :
    WaitOutcome × ClientState :=
  match lookupSlot seq cs.asyncSlots with
  | none => (.errUnknownSeq, cs)
  | some (some v) => (.ok v, { cs with asyncSlots := eraseSlot seq cs.asyncSlots })
  | some none =>
    match arrival with
    | some v =>
      let cs2 := (dispatchResponse cs v).1
      (.ok v, { cs2 with asyncSlots := eraseSlot seq cs2.asyncSlots })
    | none => (.errTimeout, cs)

theorem lookupSlot_resolveSlot {seq : Nat} {slots : List (Nat × Option DAPResp)}
    (v : DAPResp) (h : lookupSlot seq slots = some none) :
    lookupSlot seq (resolveSlot seq v slots) = some (some v) := by
  induction slots with
  | nil => cases h
  | cons p rest ih =>
    obtain ⟨k, w⟩ := p
    by_cases hk : k = seq
    · subst hk
      rw [lookupSlot, if_pos rfl] at h
      have hw : w = none := Option.some_inj.mp h
      subst hw
      rw [resolveSlot, List.map_cons, lookupSlot]
      simp
    · rw [lookupSlot, if_neg hk] at h
      rw [resolveSlot, List.map_cons]
      have hcond : ¬ (k = seq ∧ w = none) := fun hc => hk hc.1
      rw [if_neg hcond, lookupSlot, if_neg hk]
      exact ih h

theorem dispatchResponse_asyncSlots (cs : ClientState) (resp : DAPResp) :
    ((dispatchResponse cs resp).1).asyncSlots =
      (if (lookupSlot resp.request_seq cs.asyncSlots).isSome then
        resolveSlot resp.request_seq resp cs.asyncSlots
      else cs.asyncSlots) := by
  unfold dispatchResponse
  split <;> (split <;> rfl)

theorem mem_filter_ne_self (l : List Nat) (seq : Nat) : seq ∉ l.filter (fun k => k != seq) := by
  intro hmem
  have h := List.of_mem_filter hmem
  simp at h

/-- C3 (amended): the synchronous flavor behaves as claimed — the timeout
removes the pending slot and a later response for that seq is delivered to no
synchronous caller — but for the deferred flavor the timeout fails the caller
while the slot survives, so a response dispatched after the timeout settles
the deferred and remains retrievable by a second waitForResponse. -/
theorem c3_timeout_slot_fate (cs : ClientState) (seq : Nat) (resp : DAPResp)
    (hseq : resp.request_seq = seq)
    (hslot : lookupSlot seq cs.asyncSlots = some none) :
    seq ∉ (requestTimeoutFires cs seq).pending ∧
    (dispatchResponse (requestTimeoutFires cs seq) resp).2 = none ∧
    waitForResponse cs seq none = (.errTimeout, cs) ∧
    lookupSlot seq ((dispatchResponse cs resp).1).asyncSlots = some (some resp) ∧
    (waitForResponse ((dispatchResponse cs resp).1) seq none).1 = .ok resp := by
  subst hseq
  have hpend : resp.request_seq ∉ (requestTimeoutFires cs resp.request_seq).pending :=
    mem_filter_ne_self cs.pending resp.request_seq
  have hlook : lookupSlot resp.request_seq
      ((dispatchResponse cs resp).1).asyncSlots = some (some resp) := by
    rw [dispatchResponse_asyncSlots, if_pos (by rw [hslot]; rfl)]
    exact lookupSlot_resolveSlot resp hslot
  refine ⟨hpend, ?_, ?_, hlook, ?_⟩
  · unfold dispatchResponse
    rw [if_neg hpend]
  · rw [waitForResponse, hslot]
  · rw [waitForResponse, hlook]

/-- The concrete client state of the counterexample: a single outstanding
async request with seq 1 and no synchronous entry. -/
def cexClient : ClientState := sendRequestAsync ⟨[], []⟩ 1

/-- The response that arrives after the timeout in the counterexample. -/
def cexResp : DAPResp := ⟨1, true⟩

/-- Counterexample to C3 as stated: for the deferred flavor, the timed-out
wait fails the caller but the correlation-map slot for seq 1 is NOT removed
(the state is unchanged and still holds the unresolved slot), and a response
arriving after the timeout is retrievable by a second waitForResponse rather
than discarded. -/
theorem c3_counterexample :
    (waitForResponse cexClient 1 none).1 = WaitOutcome.errTimeout ∧
    (waitForResponse cexClient 1 none).2 = cexClient ∧
    lookupSlot 1 ((waitForResponse cexClient 1 none).2).asyncSlots = some none ∧
    (waitForResponse ((dispatchResponse ((waitForResponse cexClient 1 none).2) cexResp).1)
        1 none).1 = WaitOutcome.ok cexResp := by
  decide

/-- Witness for the amended C3 theorem at a concrete state: one pending
synchronous request with seq 2 and one unresolved deferred with seq 1. -/
theorem c3_witness :
    (1 : Nat) ∉ (requestTimeoutFires ⟨[2], [(1, none)]⟩ 1).pending ∧
    (dispatchResponse (requestTimeoutFires ⟨[2], [(1, none)]⟩ 1) ⟨1, true⟩).2 = none ∧
    waitForResponse ⟨[2], [(1, none)]⟩ 1 none = (.errTimeout, ⟨[2], [(1, none)]⟩) ∧
    lookupSlot 1 ((dispatchResponse ⟨[2], [(1, none)]⟩ ⟨1, true⟩).1).asyncSlots
      = some (some ⟨1, true⟩) ∧
    (waitForResponse ((dispatchResponse ⟨[2], [(1, none)]⟩ ⟨1, true⟩).1) 1 none).1
      = .ok ⟨1, true⟩ :=
  c3_timeout_slot_fate ⟨[2], [(1, none)]⟩ 1 ⟨1, true⟩ rfl rfl

/-! ## Breakpoint string parsing (session.ts, parseBreakpoints)

parseBreakpoints splits each raw string on colons, resolves the file part,
parses the line with parseInt, silently skips strings with fewer than two
parts or a NaN line, rejoins any remaining parts with colons as the
condition, and groups the entries in a Map keyed by resolved file in
first-insertion order. -/

/-- A per-file breakpoint group as produced by parseBreakpoints. -/
structure BpGroup where
  file : String
  lines : List Int
  conditions : List (Option String)
deriving DecidableEq, Repr

/-- A surviving breakpoint spec (resolved file, line, optional condition). -/
structure BpSpec where
  file : String
  line : Int
  condition : Option String
deriving DecidableEq, Repr

/-- Array.prototype.join with a colon separator. -/
def joinColon : List Bytes → Bytes
  | [] => []
  | [l] => l
  | l :: ls => l ++ ':' :: joinColon ls

/-- The loop body of parseBreakpoints on one raw string: split on colons,
skip when fewer than two parts, parse the line (skip on NaN), resolve the
file, and rejoin everything after the second colon as the condition. -/
def parseBpEntry (resolve : String → String) (bp : String) : Option BpSpec :=
  let parts := splitOnChar ':' bp.toList
  if parts.length < 2 then none
  else
    match parseIntJS (parts.getD 1 []) with
    | none => none
    | some line =>
      some ⟨resolve (String.mk (parts.getD 0 [])), line,
        if parts.length > 2 then some (String.mk (joinColon (parts.drop 2))) else none⟩

/-- Map.prototype.set keyed by file with entry mutation: append to the first
group with this file, or append a fresh group at the end. -/
def addToGroups (groups : List BpGroup) (f : String) (l : Int) (c : Option String) :
    List BpGroup :=
  match groups with
  | [] => [⟨f, [l], [c]⟩]
  | g :: gs =>
    if g.file = f then
      { g with lines := g.lines ++ [l], conditions := g.conditions ++ [c] } :: gs
    else g :: addToGroups gs f l c

/-- session.ts parseBreakpoints. -/
def parseBreakpoints (resolve : String → String) (raw : List String) : List BpGroup :=
  raw.foldl
    (fun groups bp =>
      match parseBpEntry resolve bp with
      | none => groups
      | some sp => addToGroups groups sp.file sp.line sp.condition)
    []

/-- Modelled from the claim wording: the list of surviving specs — each
string of the form file:line[:condition], with everything after the second
colon rejoined on colons, keeping only strings with at least two parts and a
parseable line. -/
def claimedSpecs (resolve : String → String) (raw : List String) : List BpSpec :=
  raw.filterMap (fun bp =>
    match splitOnChar ':' bp.toList with
    | fileB :: lineB :: restParts =>
      match parseIntJS lineB with
      | some line =>
        some ⟨resolve (String.mk fileB), line,
          match restParts with
          | [] => none
          | _ :: _ => some (String.mk (joinColon restParts))⟩
      | none => none
    | _ => none)

/-- Duplicate removal keeping first occurrences (JS Map key order). -/
def dedupFirst : List String → List String
  | [] => []
  | x :: xs => x :: dedupFirst (xs.filter (fun y => y != x))
termination_by l => l.length
decreasing_by
  have := List.length_filter_le (fun y => y != x) xs
  simp only [List.length_cons]
  omega

/-- Modelled from the claim wording: the surviving specs grouped by resolved
file path, files in first-occurrence order, entries in input order. -/
def claimedGroups (specs : List BpSpec) : List BpGroup :=
  (dedupFirst (specs.map BpSpec.file)).map
    (fun f => ⟨f, (specs.filter (fun p => p.file == f)).map BpSpec.line,
                  (specs.filter (fun p => p.file == f)).map BpSpec.condition⟩)

theorem dedupFirst_cons (x : String) (xs : List String) :
    dedupFirst (x :: xs) = x :: dedupFirst (xs.filter (fun y => y != x)) := by
  rw [dedupFirst]

theorem mem_dedupFirst (x : String) (l : List String) : x ∈ dedupFirst l ↔ x ∈ l := by
  have H : ∀ n (l : List String), l.length = n → (x ∈ dedupFirst l ↔ x ∈ l) := by
    intro n
    induction n using Nat.strong_induction_on with
    | _ n ih =>
      intro l hl
      cases l with
      | nil => simp [dedupFirst]
      | cons y ys =>
        rw [dedupFirst_cons]
        have hlen : (ys.filter (fun z => z != y)).length < n := by
          have := List.length_filter_le (fun z => z != y) ys
          simp only [List.length_cons] at hl
          omega
        rw [List.mem_cons, List.mem_cons,
          ih _ hlen (ys.filter (fun z => z != y)) rfl]
        by_cases hxy : x = y
        · simp [hxy]
        · simp only [hxy, false_or]
          rw [List.mem_filter]
          simp [bne_iff_ne, hxy]
  exact H l.length l rfl

theorem nodup_dedupFirst (l : List String) : (dedupFirst l).Nodup := by
  have H : ∀ n (l : List String), l.length = n → (dedupFirst l).Nodup := by
    intro n
    induction n using Nat.strong_induction_on with
    | _ n ih =>
      intro l hl
      cases l with
      | nil => simp [dedupFirst]
      | cons y ys =>
        rw [dedupFirst_cons, List.nodup_cons]
        have hlen : (ys.filter (fun z => z != y)).length < n := by
          have := List.length_filter_le (fun z => z != y) ys
          simp only [List.length_cons] at hl
          omega
        refine ⟨?_, ih _ hlen _ rfl⟩
        intro hcontra
        have h1 := (mem_dedupFirst y _).mp hcontra
        have h2 := (List.mem_filter.mp h1).2
        simp at h2
  exact H l.length l rfl

theorem dedupFirst_append_mem {f : String} {l : List String} (h : f ∈ l) :
    dedupFirst (l ++ [f]) = dedupFirst l := by
  have H : ∀ n (l : List String), l.length = n → f ∈ l → dedupFirst (l ++ [f]) = dedupFirst l := by
    intro n
    induction n using Nat.strong_induction_on with
    | _ n ih =>
      intro l hl hmem
      cases l with
      | nil => cases hmem
      | cons y ys =>
        rw [List.cons_append, dedupFirst_cons, dedupFirst_cons, List.filter_append]
        by_cases hfy : f = y
        · have hnil : [f].filter (fun z => z != y) = [] := by simp [hfy]
          rw [hnil, List.append_nil]
        · have hone : [f].filter (fun z => z != y) = [f] := by simp [hfy]
          rw [hone]
          have hlen : (ys.filter (fun z => z != y)).length < n := by
            have := List.length_filter_le (fun z => z != y) ys
            simp only [List.length_cons] at hl
            omega
          have hmem2 : f ∈ ys.filter (fun z => z != y) := by
            rw [List.mem_filter]
            refine ⟨?_, by simp [hfy]⟩
            cases List.mem_cons.mp hmem with
            | inl hc => exact absurd hc hfy
            | inr hc => exact hc
          rw [ih _ hlen _ rfl hmem2]
  exact H l.length l rfl h

theorem dedupFirst_append_not_mem {f : String} {l : List String} (h : f ∉ l) :
    dedupFirst (l ++ [f]) = dedupFirst l ++ [f] := by
  have H : ∀ n (l : List String), l.length = n → f ∉ l →
      dedupFirst (l ++ [f]) = dedupFirst l ++ [f] := by
    intro n
    induction n using Nat.strong_induction_on with
    | _ n ih =>
      intro l hl hmem
      cases l with
      | nil => simp [dedupFirst, dedupFirst_cons]
      | cons y ys =>
        have hfy : f ≠ y := fun hc => hmem (by simp [hc])
        rw [List.cons_append, dedupFirst_cons, dedupFirst_cons, List.filter_append]
        have hone : [f].filter (fun z => z != y) = [f] := by simp [hfy]
        rw [hone]
        have hlen : (ys.filter (fun z => z != y)).length < n := by
          have := List.length_filter_le (fun z => z != y) ys
          simp only [List.length_cons] at hl
          omega
        have hmem2 : f ∉ ys.filter (fun z => z != y) := by
          intro hc
          exact hmem (by simp [List.mem_filter.mp hc |>.1])
        rw [ih _ hlen _ rfl hmem2]
        simp
  exact H l.length l rfl h

theorem addToGroups_not_mem {groups : List BpGroup} {f : String}
    (h : ∀ g ∈ groups, g.file ≠ f) (l : Int) (c : Option String) :
    addToGroups groups f l c = groups ++ [⟨f, [l], [c]⟩] := by
  induction groups with
  | nil => rfl
  | cons g gs ih =>
    rw [addToGroups, if_neg (h g (by simp)), ih (fun g2 hg2 => h g2 (by simp [hg2]))]
    rfl

theorem addToGroups_split {A : List BpGroup} {g0 : BpGroup} {f : String} (B : List BpGroup)
    (hA : ∀ g ∈ A, g.file ≠ f) (hg0 : g0.file = f) (l : Int) (c : Option String) :
    addToGroups (A ++ g0 :: B) f l c =
      A ++ { g0 with lines := g0.lines ++ [l], conditions := g0.conditions ++ [c] } :: B := by
  induction A with
  | nil =>
    rw [List.nil_append, addToGroups, if_pos hg0]
    rfl
  | cons a as ih =>
    rw [List.cons_append, addToGroups, if_neg (hA a (by simp)),
      ih (fun g2 hg2 => hA g2 (by simp [hg2]))]
    rfl

theorem filter_file_append_ne (specs : List BpSpec) (p : BpSpec) {f : String}
    (h : p.file ≠ f) :
    (specs ++ [p]).filter (fun q => q.file == f) = specs.filter (fun q => q.file == f) := by
  rw [List.filter_append]
  have h1 : [p].filter (fun q => q.file == f) = [] := by simp [h]
  rw [h1, List.append_nil]

theorem filter_file_append_eq (specs : List BpSpec) (p : BpSpec) :
    (specs ++ [p]).filter (fun q => q.file == p.file)
      = specs.filter (fun q => q.file == p.file) ++ [p] := by
  rw [List.filter_append]
  have h1 : [p].filter (fun q => q.file == p.file) = [p] := by simp
  rw [h1]

/-- Appending one spec to a spec list updates the claimed grouping exactly as
the parseBreakpoints Map update does. -/
theorem claimedGroups_append (specs : List BpSpec) (p : BpSpec) :
    claimedGroups (specs ++ [p])
      = addToGroups (claimedGroups specs) p.file p.line p.condition := by
  by_cases hmem : p.file ∈ specs.map BpSpec.file
  · -- existing file: the first (unique) group with this file is extended
    have hdedup : dedupFirst ((specs ++ [p]).map BpSpec.file)
        = dedupFirst (specs.map BpSpec.file) := by
      rw [List.map_append]
      exact dedupFirst_append_mem hmem
    have hmemd : p.file ∈ dedupFirst (specs.map BpSpec.file) :=
      (mem_dedupFirst _ _).mpr hmem
    obtain ⟨A, B, hAB⟩ := List.append_of_mem hmemd
    have hnd := nodup_dedupFirst (specs.map BpSpec.file)
    rw [hAB] at hnd
    have hpA : p.file ∉ A := by
      intro hc
      exact List.disjoint_of_nodup_append hnd hc (by simp)
    have hpB : p.file ∉ B := by
      have := (List.nodup_append.mp hnd).2.1
      exact (List.nodup_cons.mp this).1
    rw [claimedGroups, hdedup, hAB, List.map_append, List.map_cons]
    rw [claimedGroups, hAB, List.map_append, List.map_cons]
    rw [addToGroups_split (B.map _)
      (by
        intro g hg
        obtain ⟨a, ha, rfl⟩ := List.mem_map.mp hg
        show a ≠ p.file
        intro hc
        exact hpA (hc ▸ ha))
      rfl p.line p.condition]
    congr 1
    · apply List.map_congr_left
      intro a ha
      have hane : p.file ≠ a := fun hc => hpA (hc ▸ ha)
      rw [filter_file_append_ne specs p hane]
    · congr 1
      · rw [filter_file_append_eq specs p]
        simp
      · apply List.map_congr_left
        intro b hb
        have hbne : p.file ≠ b := fun hc => hpB (hc ▸ hb)
        rw [filter_file_append_ne specs p hbne]
  · -- new file: a fresh group is appended at the end
    have hdedup : dedupFirst ((specs ++ [p]).map BpSpec.file)
        = dedupFirst (specs.map BpSpec.file) ++ [p.file] := by
      rw [List.map_append]
      exact dedupFirst_append_not_mem hmem
    have hgroups_ne : ∀ g ∈ claimedGroups specs, g.file ≠ p.file := by
      intro g hg
      rw [claimedGroups] at hg
      obtain ⟨f, hf, rfl⟩ := List.mem_map.mp hg
      intro hcontra
      apply hmem
      rw [← hcontra]
      exact (mem_dedupFirst _ _).mp hf
    rw [addToGroups_not_mem hgroups_ne p.line p.condition]
    rw [claimedGroups, claimedGroups, hdedup, List.map_append]
    congr 1
    · apply List.map_congr_left
      intro f hf
      have hfne : p.file ≠ f := by
        intro hc
        exact hmem (hc ▸ (mem_dedupFirst _ _).mp hf)
      rw [filter_file_append_ne specs p hfne]
    · have hempty : specs.filter (fun q => q.file == p.file) = [] := by
        rw [List.filter_eq_nil_iff]
        intro q hq
        simp only [beq_iff_eq, Bool.not_eq_true]
        intro hc
        exact absurd (hc ▸ List.mem_map_of_mem BpSpec.file hq) hmem
      rw [List.map_cons, List.map_nil, filter_file_append_eq specs p, hempty]
      rfl

/-- The parseBreakpoints fold over surviving specs builds the claimed
grouping. -/
theorem foldl_addToGroups_eq_claimedGroups (specs : List BpSpec) :
    specs.foldl (fun gs sp => addToGroups gs sp.file sp.line sp.condition) []
      = claimedGroups specs := by
  induction specs using List.reverseRecOn with
  | nil => simp [claimedGroups, dedupFirst]
  | append_singleton xs p ih =>
    rw [List.foldl_append, List.foldl_cons, List.foldl_nil, ih, claimedGroups_append]

/-- The loop body of the code parser agrees with the claimed per-string
mapping. -/
theorem parseBpEntry_eq (resolve : String → String) (bp : String) :
    parseBpEntry resolve bp =
      (match splitOnChar ':' bp.toList with
       | fileB :: lineB :: restParts =>
         match parseIntJS lineB with
         | some line =>
           some ⟨resolve (String.mk fileB), line,
             match restParts with
             | [] => none
             | _ :: _ => some (String.mk (joinColon restParts))⟩
         | none => none
       | _ => none) := by
  unfold parseBpEntry
  cases hsplit : splitOnChar ':' bp.toList with
  | nil => simp
  | cons a rest =>
    cases rest with
    | nil => simp
    | cons b rs =>
      simp only [List.length_cons]
      rw [if_neg (by omega)]
      cases hint : parseIntJS ((a :: b :: rs).getD 1 []) with
      | none =>
        have hb : (a :: b :: rs).getD 1 [] = b := rfl
        rw [hb] at hint
        simp [hint]
      | some line =>
        have hb : (a :: b :: rs).getD 1 [] = b := rfl
        rw [hb] at hint
        simp only [hb, hint]
        cases rs with
        | nil => simp
        | cons r rrs =>
          simp only [List.length_cons]
          rw [if_pos (by omega)]
          rfl

/-- The claimed spec list is the filterMap of the code parser loop body. -/
theorem claimedSpecs_eq_filterMap (resolve : String → String) (raw : List String) :
    claimedSpecs resolve raw = raw.filterMap (parseBpEntry resolve) := by
  induction raw with
  | nil => rfl
  | cons bp rest ih =>
    rw [claimedSpecs, List.filterMap_cons, List.filterMap_cons, parseBpEntry_eq]
    rw [claimedSpecs] at ih
    rw [ih]

/-- The skip-on-parse-failure fold of parseBreakpoints equals folding over the
surviving specs. -/
theorem parseBreakpoints_eq_foldl_specs (resolve : String → String) (raw : List String) :
    parseBreakpoints resolve raw
      = (raw.filterMap (parseBpEntry resolve)).foldl
          (fun gs sp => addToGroups gs sp.file sp.line sp.condition) [] := by
  have H : ∀ (rs : List String) (acc : List BpGroup),
      rs.foldl
        (fun groups bp =>
          match parseBpEntry resolve bp with
          | none => groups
          | some sp => addToGroups groups sp.file sp.line sp.condition) acc
      = (rs.filterMap (parseBpEntry resolve)).foldl
          (fun gs sp => addToGroups gs sp.file sp.line sp.condition) acc := by
    intro rs
    induction rs with
    | nil => intro acc; rfl
    | cons bp rest ih =>
      intro acc
      rw [List.foldl_cons, List.filterMap_cons]
      cases h : parseBpEntry resolve bp with
      | none =>
        simp only [h]
        exact ih acc
      | some sp =>
        simp only [h, List.foldl_cons]
        exact ih _
  exact H raw []

/-- C4: parseBreakpoints maps each string of the form file:line[:condition]
to (resolved file, integer line, optional condition) where the condition
rejoins everything after the second colon on colons, silently skips every
string with fewer than two colon-separated parts or an unparseable line, and
groups the surviving specs by resolved file path. -/
theorem c4_parse_breakpoints (resolve : String → String) (raw : List String) :
    parseBreakpoints resolve raw = claimedGroups (claimedSpecs resolve raw) := by
  rw [parseBreakpoints_eq_foldl_specs, claimedSpecs_eq_filterMap,
    foldl_addToGroups_eq_claimedGroups]

/-! ## Session state machine (session.ts)

Each verb is one function from the session aggregate and an oracle — the
environment data the verb consumes (adapter lookups and flow results, DAP
responses, queued events) — to a result and the updated aggregate.  Adapter
strategies and the DAP peer answer per their interface contract (section 4.2
of the specification: checkInstalled returns null or a message, initFlow and
attachFlow return a result record), so their answers are oracle data; DAP
requests are modelled by their response oracle. -/

inductive SessionState
  | idle
  | starting
  | running
  | paused
  | terminated
deriving DecidableEq, Repr

/-- A source location; the third component is the function name. -/
structure LocationInfo where
  file : String
  line : Nat
  func : String
deriving DecidableEq, Repr

/-- A variable row of the vars result. -/
structure VariableInfo where
  name : String
  value : String
  type : String
deriving DecidableEq, Repr

/-- The session aggregate.  Object-valued fields (client, adapter, adapter
process) are modelled by presence flags; the modelled control flow reads
nothing else from them. -/
structure Sess where
  state : SessionState
  client : Bool
  adapter : Bool
  adapterProcess : Bool
  threadId : Option Nat
  frameId : Option Nat
  scriptPath : Option String
  attachedMode : Bool
deriving DecidableEq, Repr

/-- The aggregate of a fresh Session object. -/
def initialSess : Sess :=
  { state := .idle, client := false, adapter := false, adapterProcess := false,
    threadId := none, frameId := none, scriptPath := none, attachedMode := false }

/-- The loose CommandResult record; absent keys are none.  The location key
merges the absent and null cases (no claim distinguishes them). -/
structure CmdResult where
  error : Option String := none
  status : Option String := none
  reason : Option String := none
  exitCode : Option (Option Int) := none
  location : Option LocationInfo := none
  frames : Option (List LocationInfo) := none
  count : Option Nat := none
  variablesField : Option (List VariableInfo) := none
  result : Option String := none
  type : Option String := none
  stateField : Option SessionState := none
  file : Option String := none
  line : Option Nat := none
  verified : Option Bool := none
  source : Option String := none
deriving DecidableEq, Repr

/-- The double-start rejection message of startSession and attachSession. -/
def alreadyActiveMsg : String := "Session already active. Run 'agent-debugger close' first."

/-- cleanup(): disconnect and null the client, kill and null the adapter
child process. -/
def cleanupSess (s : Sess) : Sess := { s with client := false, adapterProcess := false }

/-- updateFrame: refresh the cached top frame id from a stackTrace response;
the oracle carries the id of the top returned frame, or none when the
request fails or returns no frames (the cached id is then left unchanged). -/
def updateFrame (s : Sess) (fo : Option Nat) : Sess :=
  if s.client = false ∨ s.threadId = none then s
  else
    match fo with
    | some fid => { s with frameId := some fid }
    | none => s

/-- The start command fields the session logic branches on (args, cwd,
runtime, stop_on_entry and breakpoints are forwarded to the adapter). -/
structure StartCmd where
  script : String
  language : Option String
  breakpoints : List String
deriving DecidableEq, Repr

/-- Outcome of the try block around adapter.spawn and client.connect: a
spawn throw leaves both fields unset, a connect throw happens after the
adapter process and the client object were already stored. -/
inductive SpawnOutcome
  | spawnThrow (msg : String)
  | connectThrow (msg : String)
  | ok
deriving DecidableEq, Repr

/-- Environment of one start verb (adapter lookup result, install check,
spawn/connect outcome, initFlow result, queued stopped event, stackTrace
answers). -/
structure StartOracle where
  adapterFound : Bool
  installErr : Option String
  spawn : SpawnOutcome
  flow : CmdResult
  stoppedThreadId : Option Nat
  frameOracle : Option Nat
  loc : Option LocationInfo
deriving Repr

/-- session.ts startSession. -/
def startSession (resolve : String → String) (s : Sess) (cmd : StartCmd)
    (o : StartOracle) : CmdResult × Sess :=
  if s.state ≠ .idle then ({ error := some alreadyActiveMsg }, s)
  else
    let script := resolve cmd.script
    let s1 : Sess :=
      { s with scriptPath := some script, state := .starting, adapter := o.adapterFound }
    if o.adapterFound = false then
      ({ error := some ("Unsupported file type: " ++ script ++
          ". Supported: .py, .js, .ts, .go, .rs, .c, .cpp") }, { s1 with state := .idle })
    else
      match o.installErr with
      | some e => ({ error := some e }, { s1 with state := .idle })
      | none =>
        match o.spawn with
        | .spawnThrow m =>
          ({ error := some ("Failed to start debug adapter: " ++ m) },
            { s1 with state := .idle })
        | .connectThrow m =>
          ({ error := some ("Failed to start debug adapter: " ++ m) },
            { s1 with adapterProcess := true, client := true, state := .idle })
        | .ok =>
          let s2 : Sess := { s1 with adapterProcess := true, client := true }
          if o.flow.error ≠ none then
            (o.flow, cleanupSess { s2 with state := .idle })
          else if o.flow.status = some "paused" then
            let t0 := o.stoppedThreadId.getD 1
            let t := if t0 = 0 then 1 else t0
            let s3 := updateFrame { s2 with state := .paused, threadId := some t } o.frameOracle
            ({ o.flow with location := o.loc }, s3)
          else if o.flow.status = some "terminated" then
            (o.flow, { s2 with state := .terminated })
          else
            (o.flow, { s2 with state := .running })

/-- The attach command fields the session logic branches on. -/
structure AttachCmd where
  host : Option String
  port : Option Nat
  pid : Option Nat
  language : Option String
  breakpoints : List String
deriving DecidableEq, Repr

/-- JS truthiness of an optional numeric field (absent and 0 are falsy). -/
def truthyNum : Option Nat → Bool
  | none => false
  | some n => n != 0

/-- Outcome of adapter.inject for PID mode. -/
inductive InjectOutcome
  | injThrow (msg : String)
  | ok (port : Nat)
deriving DecidableEq, Repr

/-- Environment of one attach verb. -/
structure AttachOracle where
  adapterFound : Bool
  attachFlowSupported : Bool
  injectSupported : Bool
  inject : InjectOutcome
  connectOk : Bool
  connectErrMsg : String
  flow : CmdResult
deriving Repr

/-- The tail of attachSession shared by the port and PID paths: connect the
client (nulling it again on a connect throw), run attachFlow, and on success
enter running with attachedMode set. -/
def attachConnect (s1 : Sess) (o : AttachOracle) : CmdResult × Sess :=
  if o.connectOk = false then
    ({ error := some ("Failed to connect: " ++ o.connectErrMsg) },
      { s1 with state := .idle, client := false })
  else
    let s2 : Sess := { s1 with client := true }
    if o.flow.error ≠ none then
      (o.flow, cleanupSess { s2 with state := .idle })
    else
      (o.flow, { s2 with state := .running, attachedMode := true })

/-- session.ts attachSession. -/
def attachSession (s : Sess) (cmd : AttachCmd) (o : AttachOracle) : CmdResult × Sess :=
  if s.state ≠ .idle then ({ error := some alreadyActiveMsg }, s)
  else if truthyNum cmd.port = false ∧ truthyNum cmd.pid = false then
    ({ error := some "Either port or --pid is required" }, s)
  else
    let s1 : Sess := { s with state := .starting, adapter := o.adapterFound }
    if o.adapterFound = false then
      ({ error := some "Unknown language" }, { s1 with state := .idle })
    else if o.attachFlowSupported = false then
      ({ error := some "Attach not supported" }, { s1 with state := .idle })
    else if truthyNum cmd.pid then
      if o.injectSupported = false then
        ({ error := some "PID injection not supported" }, { s1 with state := .idle })
      else
        match o.inject with
        | .injThrow m =>
          ({ error := some ("Failed to inject into PID: " ++ m) }, { s1 with state := .idle })
        | .ok _ => attachConnect s1 o
    else attachConnect s1 o

/-- A scope row of a scopes response. -/
structure ScopeInfo where
  name : String
  variablesReference : Nat
deriving DecidableEq, Repr

/-- A variable row of a variables response; vtype models the optional type
field. -/
structure RawVariable where
  name : String
  value : String
  vtype : Option String
deriving DecidableEq, Repr

/-- Environment of one vars verb: updateFrame answer, scopes response, and
the variables response per variablesReference. -/
structure VarsOracle where
  frameOracle : Option Nat
  scopes : Option (List ScopeInfo)
  varsFor : Nat → Option (List RawVariable)
  loc : Option LocationInfo

/-- session.ts getVariables. -/
def getVariables (s : Sess) (isInternalVar : RawVariable → Bool) (o : VarsOracle) :
    CmdResult × Sess :=
  if s.state ≠ .paused then ({ error := some "Program is not paused" }, s)
  else if s.client = false then ({ error := some "No active session" }, s)
  else
    let s1 := updateFrame s o.frameOracle
    match s1.frameId with
    | none => ({ error := some "No frame available" }, s1)
    | some _ =>
      match o.scopes with
      | none => ({ error := some "Failed to get scopes" }, s1)
      | some scopes =>
        let vars := scopes.foldl
          (fun acc sc =>
            if sc.name = "Locals" ∨ sc.name = "Local" then
              match o.varsFor sc.variablesReference with
              | some vs =>
                acc ++ (vs.filter (fun v => !(s1.adapter && isInternalVar v))).map
                  (fun v => VariableInfo.mk v.name v.value (v.vtype.getD ""))
              | none => acc
            else acc)
          []
        ({ variablesField := some vars, count := some vars.length, location := o.loc }, s1)

/-- A frame row of a stackTrace response. -/
structure RawFrame where
  id : Nat
  name : String
  line : Nat
  column : Nat
  sourcePath : Option String
deriving DecidableEq, Repr

/-- Environment of one stack verb: the stackTrace response (none = request
failure; some = the stackFrames array, empty when absent). -/
structure StackOracle where
  frames : Option (List RawFrame)
deriving DecidableEq, Repr

/-- session.ts getStack: guard, fetch frames, drop adapter-internal frames
(kept when no adapter is set), and return the survivors with their count. -/
def getStack (s : Sess) (isInternalFrame : RawFrame → Bool) (o : StackOracle) :
    CmdResult × Sess :=
  if s.state ≠ .paused then ({ error := some "Program is not paused" }, s)
  else if s.client = false ∨ s.threadId = none then ({ error := some "No active session" }, s)
  else
    match o.frames with
    | none => ({ error := some "Failed to get stack trace" }, s)
    | some raw =>
      let frames := (raw.filter (fun f => !(s.adapter && isInternalFrame f))).map
        (fun f => LocationInfo.mk (f.sourcePath.getD "") f.line f.name)
      ({ frames := some frames, count := some frames.length }, s)

/-- The evaluate response as read by evalExpression. -/
structure EvalOracle where
  success : Bool
  body : Option (String × Option String)
  message : Option String
deriving DecidableEq, Repr

/-- session.ts evalExpression. -/
def evalExpression (s : Sess) (expr : String) (o : EvalOracle) : CmdResult × Sess :=
  if s.state ≠ .paused then ({ error := some "Program is not paused" }, s)
  else if s.client = false then ({ error := some "No active session" }, s)
  else if expr = "" then ({ error := some "No expression provided" }, s)
  else
    match (if o.success then o.body else none) with
    | some (r, ty) => ({ result := some r, type := some (ty.getD "") }, s)
    | none => ({ error := some (o.message.getD "Evaluation failed") }, s)

/-- A stopped event as read by waitForStop, with the oracle answers of the
updateFrame and currentLocation calls that follow it. -/
structure StoppedEvt where
  reason : Option String
  tid : Option Nat
  frameOracle : Option Nat
  loc : Option LocationInfo
deriving DecidableEq, Repr

/-- One 1-second tick of the waitForStop loop: the optional stopped event
returned by waitForEvent, and the terminated and exited events drained when
no stop arrived (each exited event carries body.exitCode or null). -/
structure Tick where
  stopped : Option StoppedEvt
  terminatedEvts : Bool
  exitedEvts : List (Option Int)
deriving DecidableEq, Repr

/-- The polling loop of waitForStop; none models a loop that is still
polling when the modelled tick sequence ends (the source loop is unbounded
by design). -/
def waitLoop (s : Sess) : List Tick → Option (CmdResult × Sess)
  | [] => none
  | t :: rest =>
    match t.stopped with
    | some ev =>
      let tid2 : Option Nat := match ev.tid with | some x => some x | none => s.threadId
      let s1 : Sess := { s with state := .paused, threadId := tid2 }
      let s2 := updateFrame s1 ev.frameOracle
      some ({ status := some "paused", reason := some (ev.reason.getD "unknown"),
              location := ev.loc }, s2)
    | none =>
      if t.terminatedEvts || !t.exitedEvts.isEmpty then
        some ({ status := some "terminated",
                exitCode := some (match t.exitedEvts with | [] => none | e :: _ => e) },
          { s with state := .terminated })
      else waitLoop s rest

/-- session.ts waitForStop. -/
def waitForStop (s : Sess) (ticks : List Tick) : Option (CmdResult × Sess) :=
  if s.client = false then some ({ error := some "No active session" }, s)
  else waitLoop s ticks

/-- session.ts step: guard, send next/stepIn/stepOut for the kind (the
choice shapes only the DAP request), enter running, and wait.  none models a
wait that never returns. -/
def stepVerb (s : Sess) (kind : String) (ticks : List Tick) : Option (CmdResult × Sess) :=
  if s.state ≠ .paused then some ({ error := some "Program is not paused" }, s)
  else if s.client = false ∨ s.threadId = none then
    some ({ error := some "No active session" }, s)
  else waitForStop { s with state := .running } ticks

/-- session.ts continueExecution. -/
def continueVerb (s : Sess) (ticks : List Tick) : Option (CmdResult × Sess) :=
  if s.state = .running then
    if s.client = false then some ({ error := some "No active session" }, s)
    else waitForStop s ticks
  else if s.state ≠ .paused then some ({ error := some "Program is not paused" }, s)
  else if s.client = false ∨ s.threadId = none then
    some ({ error := some "No active session" }, s)
  else waitForStop { s with state := .running } ticks

/-- A breakpoint row of a setBreakpoints response. -/
structure RawBp where
  line : Option Nat
  verified : Option Bool
deriving DecidableEq, Repr

/-- The setBreakpoints response: none models a failed request; some [] a
success without breakpoint rows (both take the error path). -/
structure BreakOracle where
  resp : Option (List RawBp)
deriving DecidableEq, Repr

/-- session.ts setBreakpoint (the condition shapes only the request body). -/
def setBreakpointVerb (resolve : String → String) (s : Sess) (filePath : String)
    (line : Nat) (o : BreakOracle) : CmdResult × Sess :=
  if s.client = false then ({ error := some "No active session" }, s)
  else
    let absPath := resolve filePath
    match o.resp with
    | some (bp :: _) =>
      ({ file := some absPath, line := some (bp.line.getD line),
         verified := some (bp.verified.getD false) }, s)
    | _ => ({ error := some "Failed to set breakpoint" }, s)

/-- Environment of one source verb: the currentLocation answer and the file
content split on newlines (none = read throw). -/
structure SourceOracle where
  loc : Option LocationInfo
  content : Option (List String)
deriving DecidableEq, Repr

/-- String.prototype.padStart(4). -/
def padStart4 (str : String) : String :=
  if str.length < 4 then String.mk (List.replicate (4 - str.length) ' ') ++ str else str

/-- The source window of getSourceAsync: eleven lines around the center with
line numbers and an arrow marker on the center line. -/
def renderSourceWindow (ls : List String) (center : Nat) : String :=
  let start := center - 5
  let stop := min ls.length (center + 6)
  String.intercalate "\n"
    ((List.range (stop - start)).map (fun k =>
      let i := start + k
      let marker := if i = center then "→" else " "
      marker ++ " " ++ padStart4 (toString (i + 1)) ++ " │ " ++ ls.getD i ""))

/-- session.ts getSourceAsync. -/
def getSourceVerb (resolve : String → String) (s : Sess) (filePath : Option String)
    (line : Option Nat) (o : SourceOracle) : CmdResult × Sess :=
  let resolved :=
    if filePath = none ∧ s.state = .paused then
      match o.loc with
      | some loc => (some loc.file, match line with | some l => some l | none => some loc.line)
      | none => (filePath, line)
    else (filePath, line)
  match resolved.1 with
  | none => ({ error := some "No file specified and not paused at a known location" }, s)
  | some f =>
    let rf := resolve f
    match o.content with
    | none => ({ error := some ("File not found: " ++ rf) }, s)
    | some ls =>
      let rlv := match resolved.2 with | none => 1 | some n => if n = 0 then 1 else n
      ({ file := some rf, line := resolved.2,
         source := some (renderSourceWindow ls (rlv - 1)) }, s)

/-- session.ts getStatusAsync (the daemon routes the status verb here). -/
def getStatusAsyncVerb (s : Sess) (loc : Option LocationInfo) : CmdResult × Sess :=
  ({ stateField := some s.state,
     location := if s.state = .paused then loc else none }, s)

/-- session.ts close: cleanup, then reset all session fields to idle. -/
def closeVerb (s : Sess) : CmdResult × Sess :=
  ({ status := some "closed" },
    { cleanupSess s with state := .idle, threadId := none, frameId := none,
                         scriptPath := none, attachedMode := false })

/-- One verb invocation: the command payload with the oracle data its
handler consumes; display filters travel with the verbs that use them. -/
inductive VerbInput
  | start (cmd : StartCmd) (o : StartOracle)
  | attach (cmd : AttachCmd) (o : AttachOracle)
  | vars (isInternalVar : RawVariable → Bool) (o : VarsOracle)
  | stack (isInternalFrame : RawFrame → Bool) (o : StackOracle)
  | evalExpr (expression : String) (o : EvalOracle)
  | step (kind : String) (ticks : List Tick)
  | cont (ticks : List Tick)
  | brk (file : String) (line : Nat) (condition : Option String) (o : BreakOracle)
  | source (file : Option String) (line : Option Nat) (o : SourceOracle)
  | status (loc : Option LocationInfo)
  | close

/-- session.ts handleCommand (with status routed to getStatusAsync as the
daemon does); none models a verb whose wait loop never returns. -/
def handleCmd (resolve : String → String) (s : Sess) : VerbInput → Option (CmdResult × Sess)
  | .start cmd o => some (startSession resolve s cmd o)
  | .attach cmd o => some (attachSession s cmd o)
  | .vars iv o => some (getVariables s iv o)
  | .stack fi o => some (getStack s fi o)
  | .evalExpr e o => some (evalExpression s e o)
  | .step kind ticks => stepVerb s kind ticks
  | .cont ticks => continueVerb s ticks
  | .brk f l _ o => some (setBreakpointVerb resolve s f l o)
  | .source f l o => some (getSourceVerb resolve s f l o)
  | .status loc => some (getStatusAsyncVerb s loc)
  | .close => some (closeVerb s)

/-- Run a sequence of verbs from a starting aggregate; none when some verb
never completed. -/
def runVerbs (resolve : String → String) : Sess → List VerbInput → Option Sess
  | s, [] => some s
  | s, v :: rest =>
    match handleCmd resolve s v with
    | none => none
    | some (_, s2) => runVerbs resolve s2 rest

/-- Whether a verb input is an attach command. -/
def VerbInput.isAttach : VerbInput → Bool
  | .attach _ _ => true
  | _ => false

/-- python.ts isInternalFrame: the frame source path contains debugpy,
pydevd, or the frozen-module marker. -/
def pyIsInternalFrame (f : RawFrame) : Bool :=
  let path := (f.sourcePath.getD "").toList
  containsSub ("debugpy".toList) path || containsSub ("pydevd".toList) path ||
    containsSub ("<frozen".toList) path

/-- evalExpression returns the aggregate it was given, on every path. -/
theorem evalExpression_sess (s : Sess) (expr : String) (o : EvalOracle) :
    (evalExpression s expr o).2 = s := by
  unfold evalExpression
  repeat' split
  all_goals rfl

/-- C6: executing the eval verb leaves the session aggregate unchanged in
every state and for every expression — in particular the state, threadId and
frameId that determine the status and location later verbs report. -/
theorem c6_eval_preserves_session (s : Sess) (expr : String) (o : EvalOracle) :
    (evalExpression s expr o).2.state = s.state ∧
    (evalExpression s expr o).2.threadId = s.threadId ∧
    (evalExpression s expr o).2.frameId = s.frameId ∧
    (evalExpression s expr o).2 = s := by
  have h := evalExpression_sess s expr o
  exact ⟨by rw [h], by rw [h], by rw [h], h⟩

/-- C10: close is total and idempotent at the public interface: from any
aggregate it returns status closed without error, afterwards the aggregate is
idle with threadId, frameId, scriptPath null and attachedMode false, and a
second close returns the same result and leaves the same aggregate. -/
theorem c10_close_total_idempotent (s : Sess) :
    (closeVerb s).1 = { status := some "closed" } ∧
    (closeVerb s).1.error = none ∧
    (closeVerb s).2.state = .idle ∧
    (closeVerb s).2.threadId = none ∧
    (closeVerb s).2.frameId = none ∧
    (closeVerb s).2.scriptPath = none ∧
    (closeVerb s).2.attachedMode = false ∧
    closeVerb ((closeVerb s).2) = closeVerb s := by
  unfold closeVerb cleanupSess
  exact ⟨rfl, rfl, rfl, rfl, rfl, rfl, rfl, rfl⟩

/-- C9: a start command issued while the session is not idle returns the
fixed already-active error — whose message contains the substring already
active — and leaves the whole aggregate exactly as it was. -/
theorem c9_double_start_rejected (resolve : String → String) (s : Sess) (cmd : StartCmd)
    (o : StartOracle) (h : s.state ≠ .idle) :
    startSession resolve s cmd o = ({ error := some alreadyActiveMsg }, s) ∧
    containsSub ("already active".toList) (alreadyActiveMsg.toList) = true := by
  constructor
  · unfold startSession
    rw [if_pos h]
  · decide

/-- Witness for C9 at a concrete paused aggregate. -/
theorem c9_witness :
    startSession id ⟨.paused, true, true, true, some 1, some 2, some "/w/app.py", false⟩
        ⟨"b.py", none, []⟩ ⟨true, none, .ok, {}, none, none, none⟩
      = ({ error := some alreadyActiveMsg },
          ⟨.paused, true, true, true, some 1, some 2, some "/w/app.py", false⟩) ∧
    containsSub ("already active".toList) (alreadyActiveMsg.toList) = true :=
  c9_double_start_rejected id ⟨.paused, true, true, true, some 1, some 2, some "/w/app.py", false⟩
    ⟨"b.py", none, []⟩ ⟨true, none, .ok, {}, none, none, none⟩ (by decide)

/-- The attach command of the C8 counterexample: both port and pid present. -/
def cexAttachCmd : AttachCmd := ⟨none, some 5678, some 42, some "python", []⟩

/-- A fully successful attach environment. -/
def cexAttachOracle : AttachOracle := ⟨true, true, true, .ok 6000, true, "", {}⟩

/-- Counterexample to C8 as stated: an attach command carrying both port and
pid is processed rather than rejected — it completes without error and the
session enters running in attached mode (PID mode takes precedence). -/
theorem c8_counterexample :
    (attachSession initialSess cexAttachCmd cexAttachOracle).1.error = none ∧
    (attachSession initialSess cexAttachCmd cexAttachOracle).2.state = .running ∧
    (attachSession initialSess cexAttachCmd cexAttachOracle).2.attachedMode = true := by
  refine ⟨rfl, rfl, rfl⟩

/-- C8 (amended): the attach guard rejects a command exactly when neither
port nor pid is truthy (absent or 0); when pid is truthy the command is
processed in PID mode and the port field is ignored, so a command with both
present is processed, not rejected. -/
theorem c8_attach_guard (s : Sess) (cmd : AttachCmd) (o : AttachOracle)
    (hidle : s.state = .idle) :
    (truthyNum cmd.port = false ∧ truthyNum cmd.pid = false →
      attachSession s cmd o = ({ error := some "Either port or --pid is required" }, s)) ∧
    (truthyNum cmd.pid = true →
      attachSession s { cmd with port := none } o = attachSession s cmd o) := by
  have hne : ¬ s.state ≠ SessionState.idle := by simp [hidle]
  constructor
  · intro hg
    unfold attachSession
    rw [if_neg hne, if_pos hg]
  · intro hpid
    have hg1 : ¬ (truthyNum ({ cmd with port := none } : AttachCmd).port = false ∧
        truthyNum ({ cmd with port := none } : AttachCmd).pid = false) := by
      intro hc
      have := hc.2
      rw [show ({ cmd with port := none } : AttachCmd).pid = cmd.pid from rfl, hpid] at this
      cases this
    have hg2 : ¬ (truthyNum cmd.port = false ∧ truthyNum cmd.pid = false) := by
      intro hc
      rw [hpid] at hc
      cases hc.2
    unfold attachSession
    rw [if_neg hne, if_neg hne, if_neg hg1, if_neg hg2]

/-- Witness for the amended C8 at concrete commands: a command with neither
field is rejected with the guard error; with pid 42 present the port field
is irrelevant to the outcome. -/
theorem c8_witness :
    (attachSession initialSess ⟨none, none, none, none, []⟩ cexAttachOracle
      = ({ error := some "Either port or --pid is required" }, initialSess)) ∧
    (attachSession initialSess ⟨none, none, some 42, some "python", []⟩ cexAttachOracle
      = attachSession initialSess ⟨none, some 9999, some 42, some "python", []⟩
          cexAttachOracle) := by
  constructor
  · exact (c8_attach_guard initialSess ⟨none, none, none, none, []⟩ cexAttachOracle
      rfl).1 ⟨rfl, rfl⟩
  · exact (c8_attach_guard initialSess ⟨none, some 9999, some 42, some "python", []⟩
      cexAttachOracle rfl).2 rfl

/-- The paused python session at which C7 is evaluated. -/
def pausedPySess : Sess := ⟨.paused, true, true, true, some 1, some 2, some "/w/app.py", false⟩

/-- C7: evaluated at a stackTrace response whose single frame the python
filter classifies as internal, getStack returns an empty frames list with
count 0 and an unchanged aggregate — getStack has no fall-through to the
unfiltered top frame, contrary to the specification. -/
theorem c7_filter_can_empty_frames :
    (getStack pausedPySess pyIsInternalFrame
        ⟨some [⟨1, "main", 3, 0, some "/usr/lib/debugpy/run.py"⟩]⟩).1
      = { frames := some [], count := some 0 } ∧
    (getStack pausedPySess pyIsInternalFrame
        ⟨some [⟨1, "main", 3, 0, some "/usr/lib/debugpy/run.py"⟩]⟩).2 = pausedPySess := by
  refine ⟨rfl, rfl⟩

/-- Whenever the waitForStop polling loop returns, its result reports status
paused (on a stopped event) or terminated (on drained terminated or exited
events) and never an error. -/
theorem waitLoop_status {s : Sess} {ticks : List Tick} {r : CmdResult} {s2 : Sess}
    (h : waitLoop s ticks = some (r, s2)) :
    (r.status = some "paused" ∨ r.status = some "terminated") ∧ r.error = none := by
  induction ticks generalizing s with
  | nil => cases h
  | cons t rest ih =>
    cases ht : t.stopped with
    | some ev =>
      simp only [waitLoop, ht, Option.some_inj, Prod.mk.injEq] at h
      rw [← h.1]
      exact ⟨Or.inl rfl, rfl⟩
    | none =>
      simp only [waitLoop, ht] at h
      split at h
      · simp only [Option.some_inj, Prod.mk.injEq] at h
        rw [← h.1]
        exact ⟨Or.inr rfl, rfl⟩
      · exact ih h

/-- C5: a step issued from a paused aggregate never reports running: when
the verb returns a result, either it is a guard error carrying no status at
all, or the wait loop reports status paused or terminated. -/
theorem c5_step_never_running (s : Sess) (kind : String) (ticks : List Tick)
    (r : CmdResult) (s2 : Sess) (hpaused : s.state = .paused)
    (h : stepVerb s kind ticks = some (r, s2)) :
    r.status ≠ some "running" ∧
    (r.error = none → r.status = some "paused" ∨ r.status = some "terminated") := by
  unfold stepVerb at h
  rw [if_neg (by simp [hpaused])] at h
  split at h
  · -- guard error: no status, an error is present
    simp only [Option.some_inj, Prod.mk.injEq] at h
    rw [← h.1]
    exact ⟨by simp, by intro hc; cases hc⟩
  · rename_i hguard
    push_neg at hguard
    unfold waitForStop at h
    rw [if_neg (by simp [hguard.1])] at h
    have hs := waitLoop_status h
    exact ⟨by rcases hs.1 with hp | hp <;> simp [hp], fun _ => hs.1⟩

/-- Witness for C5: a concrete step from a paused aggregate whose first tick
carries a stopped event; the result reports paused. -/
theorem c5_witness :
    (({ status := some "paused", reason := some "step" } : CmdResult).status
        ≠ some "running") ∧
    (({ status := some "paused", reason := some "step" } : CmdResult).error = none →
      ({ status := some "paused", reason := some "step" } : CmdResult).status
          = some "paused" ∨
      ({ status := some "paused", reason := some "step" } : CmdResult).status
          = some "terminated") :=
  c5_step_never_running pausedPySess "over" [⟨some ⟨some "step", some 1, some 3, none⟩, false, []⟩]
    { status := some "paused", reason := some "step" }
    ⟨.paused, true, true, true, some 1, some 3, some "/w/app.py", false⟩
    rfl (by decide)

/-- The session-aggregate invariant as the specification states it, in its
state-local part: client non-null iff non-idle, threadId and frameId
non-null only when paused.  (The attach-only clause for attachedMode speaks
about history and is stated separately in the amended theorem.) -/
def specSessionInv (s : Sess) : Prop :=
  (s.client = true ↔ s.state ≠ .idle) ∧
  ((s.threadId ≠ none ∨ s.frameId ≠ none) → s.state = .paused)

/-- The aggregate invariant that does hold between completed verbs: a
non-idle state keeps the client non-null, threadId and frameId are non-null
only in state paused or terminated, and attachedMode implies non-idle. -/
def sessInv (s : Sess) : Prop :=
  (s.state ≠ .idle → s.client = true) ∧
  ((s.threadId ≠ none ∨ s.frameId ≠ none) → s.state = .paused ∨ s.state = .terminated) ∧
  (s.attachedMode = true → s.state ≠ .idle)

theorem sessInv_of_idle {s : Sess} (h1 : s.state = .idle) (h2 : s.threadId = none)
    (h3 : s.frameId = none) (h4 : s.attachedMode = false) : sessInv s := by
  refine ⟨fun hc => absurd h1 hc, fun hc => ?_, fun hc => by rw [h4] at hc; cases hc⟩
  rcases hc with hc | hc
  · exact absurd h2 hc
  · exact absurd h3 hc

theorem sessInv_of_stopped {s : Sess} (h1 : s.state = .paused ∨ s.state = .terminated)
    (h2 : s.client = true) : sessInv s := by
  refine ⟨fun _ => h2, fun _ => h1, fun _ => ?_⟩
  rcases h1 with h | h <;> rw [h] <;> simp

theorem sessInv_of_running {s : Sess} (h1 : s.state = .running) (h2 : s.client = true)
    (h3 : s.threadId = none) (h4 : s.frameId = none) : sessInv s := by
  refine ⟨fun _ => h2, fun hc => ?_, fun _ => by rw [h1]; simp⟩
  rcases hc with hc | hc
  · exact absurd h3 hc
  · exact absurd h4 hc

theorem sessInv_idle_fields {s : Sess} (hinv : sessInv s) (hs : s.state = .idle) :
    s.threadId = none ∧ s.frameId = none ∧ s.attachedMode = false := by
  obtain ⟨h1, h2, h3⟩ := hinv
  refine ⟨?_, ?_, ?_⟩
  · cases hq : s.threadId with
    | none => rfl
    | some x =>
      have hx := h2 (Or.inl (by simp [hq]))
      rw [hs] at hx
      rcases hx with hc | hc <;> cases hc
  · cases hq : s.frameId with
    | none => rfl
    | some x =>
      have hx := h2 (Or.inr (by simp [hq]))
      rw [hs] at hx
      rcases hx with hc | hc <;> cases hc
  · cases hq : s.attachedMode with
    | false => rfl
    | true => exact absurd hs (h3 hq)

theorem updateFrame_state (s : Sess) (fo : Option Nat) :
    (updateFrame s fo).state = s.state ∧ (updateFrame s fo).client = s.client ∧
    (updateFrame s fo).attachedMode = s.attachedMode := by
  unfold updateFrame
  split
  · exact ⟨rfl, rfl, rfl⟩
  · split
    · exact ⟨rfl, rfl, rfl⟩
    · exact ⟨rfl, rfl, rfl⟩

theorem sessInv_updateFrame_stopped {s : Sess} (fo : Option Nat)
    (h1 : s.state = .paused ∨ s.state = .terminated) (h2 : s.client = true) :
    sessInv (updateFrame s fo) := by
  have h := updateFrame_state s fo
  exact sessInv_of_stopped (by rw [h.1]; exact h1) (by rw [h.2.1]; exact h2)

theorem startSession_inv (resolve : String → String) (s : Sess) (cmd : StartCmd)
    (o : StartOracle) (hinv : sessInv s) :
    sessInv (startSession resolve s cmd o).2 ∧
    (startSession resolve s cmd o).2.attachedMode = s.attachedMode := by
  obtain ⟨h1, h2, h3⟩ := hinv
  simp only [startSession]
  split
  · exact ⟨⟨h1, h2, h3⟩, rfl⟩
  · rename_i hs
    push_neg at hs
    obtain ⟨hth, hfr, ham⟩ := sessInv_idle_fields ⟨h1, h2, h3⟩ hs
    split
    · exact ⟨sessInv_of_idle rfl hth hfr ham, rfl⟩
    · split
      · exact ⟨sessInv_of_idle rfl hth hfr ham, rfl⟩
      · split
        · exact ⟨sessInv_of_idle rfl hth hfr ham, rfl⟩
        · exact ⟨sessInv_of_idle rfl hth hfr ham, rfl⟩
        · split
          · exact ⟨sessInv_of_idle rfl hth hfr ham, rfl⟩
          · split
            · refine ⟨sessInv_updateFrame_stopped _ (Or.inl rfl) rfl, ?_⟩
              rw [(updateFrame_state _ _).2.2]
            · split
              · exact ⟨sessInv_of_stopped (Or.inr rfl) rfl, rfl⟩
              · exact ⟨sessInv_of_running rfl rfl hth hfr, rfl⟩

theorem attachConnect_inv {s1 : Sess} {o : AttachOracle} (hth : s1.threadId = none)
    (hfr : s1.frameId = none) (ham : s1.attachedMode = false) :
    sessInv (attachConnect s1 o).2 := by
  simp only [attachConnect]
  split
  · exact sessInv_of_idle rfl hth hfr ham
  · split
    · exact sessInv_of_idle rfl hth hfr ham
    · exact sessInv_of_running rfl rfl hth hfr

theorem attachSession_inv {s : Sess} {cmd : AttachCmd} {o : AttachOracle}
    (hinv : sessInv s) : sessInv (attachSession s cmd o).2 := by
  obtain ⟨h1, h2, h3⟩ := hinv
  simp only [attachSession]
  split
  · exact ⟨h1, h2, h3⟩
  · rename_i hs
    push_neg at hs
    obtain ⟨hth, hfr, ham⟩ := sessInv_idle_fields ⟨h1, h2, h3⟩ hs
    split
    · exact ⟨h1, h2, h3⟩
    · split
      · exact sessInv_of_idle rfl hth hfr ham
      · split
        · exact sessInv_of_idle rfl hth hfr ham
        · split
          · split
            · exact sessInv_of_idle rfl hth hfr ham
            · split
              · exact sessInv_of_idle rfl hth hfr ham
              · exact attachConnect_inv hth hfr ham
          · exact attachConnect_inv hth hfr ham

theorem getVariables_inv (s : Sess) (iv : RawVariable → Bool) (o : VarsOracle)
    (hinv : sessInv s) :
    sessInv (getVariables s iv o).2 ∧ (getVariables s iv o).2.attachedMode = s.attachedMode := by
  simp only [getVariables]
  split
  · exact ⟨hinv, rfl⟩
  · split
    · exact ⟨hinv, rfl⟩
    · rename_i hpause hclient
      have hstate : s.state = .paused := by
        push_neg at hpause
        exact hpause
      have hc : s.client = true := by
        cases hb : s.client with
        | false => exact absurd hb hclient
        | true => rfl
      have hI : sessInv (updateFrame s o.frameOracle) :=
        sessInv_updateFrame_stopped _ (Or.inl hstate) hc
      have hA := (updateFrame_state s o.frameOracle).2.2
      split
      · exact ⟨hI, hA⟩
      · split
        · exact ⟨hI, hA⟩
        · exact ⟨hI, hA⟩

theorem getStack_sess {s : Sess} {fi : RawFrame → Bool} {o : StackOracle} :
    (getStack s fi o).2 = s := by
  simp only [getStack]
  repeat' split
  all_goals rfl

theorem setBreakpointVerb_sess {resolve : String → String} {s : Sess} {f : String}
    {l : Nat} {o : BreakOracle} : (setBreakpointVerb resolve s f l o).2 = s := by
  simp only [setBreakpointVerb]
  repeat' split
  all_goals rfl

theorem getSourceVerb_sess {resolve : String → String} {s : Sess} {f : Option String}
    {l : Option Nat} {o : SourceOracle} : (getSourceVerb resolve s f l o).2 = s := by
  simp only [getSourceVerb]
  repeat' split
  all_goals rfl

theorem waitLoop_inv {s : Sess} {ticks : List Tick} {r : CmdResult} {s2 : Sess}
    (hc : s.client = true) (h : waitLoop s ticks = some (r, s2)) :
    sessInv s2 ∧ s2.attachedMode = s.attachedMode := by
  induction ticks generalizing s with
  | nil => cases h
  | cons t rest ih =>
    cases ht : t.stopped with
    | some ev =>
      simp only [waitLoop, ht, Option.some_inj, Prod.mk.injEq] at h
      rw [← h.2]
      constructor
      · exact sessInv_updateFrame_stopped _ (Or.inl rfl) hc
      · rw [(updateFrame_state _ _).2.2]
    | none =>
      simp only [waitLoop, ht] at h
      split at h
      · simp only [Option.some_inj, Prod.mk.injEq] at h
        rw [← h.2]
        exact ⟨sessInv_of_stopped (Or.inr rfl) hc, rfl⟩
      · exact ih hc h

theorem waitForStop_inv {s : Sess} {ticks : List Tick} {r : CmdResult} {s2 : Sess}
    (hinv : sessInv s) (h : waitForStop s ticks = some (r, s2)) :
    sessInv s2 ∧ s2.attachedMode = s.attachedMode := by
  unfold waitForStop at h
  split at h
  · simp only [Option.some_inj, Prod.mk.injEq] at h
    rw [← h.2]
    exact ⟨hinv, rfl⟩
  · rename_i hcl
    have hc : s.client = true := by
      cases hb : s.client with
      | false => exact absurd hb hcl
      | true => rfl
    exact waitLoop_inv hc h

theorem stepVerb_inv {s : Sess} {kind : String} {ticks : List Tick} {r : CmdResult}
    {s2 : Sess} (hinv : sessInv s) (h : stepVerb s kind ticks = some (r, s2)) :
    sessInv s2 ∧ s2.attachedMode = s.attachedMode := by
  unfold stepVerb at h
  split at h
  · simp only [Option.some_inj, Prod.mk.injEq] at h
    rw [← h.2]
    exact ⟨hinv, rfl⟩
  · split at h
    · simp only [Option.some_inj, Prod.mk.injEq] at h
      rw [← h.2]
      exact ⟨hinv, rfl⟩
    · rename_i hguard
      push_neg at hguard
      have hc : s.client = true := by
        cases hb : s.client with
        | false => exact absurd hb (by simpa using hguard.1)
        | true => rfl
      unfold waitForStop at h
      rw [if_neg (by simp [hc])] at h
      have hx := waitLoop_inv (s := { s with state := .running }) hc h
      exact ⟨hx.1, hx.2⟩

theorem continueVerb_inv {s : Sess} {ticks : List Tick} {r : CmdResult} {s2 : Sess}
    (hinv : sessInv s) (h : continueVerb s ticks = some (r, s2)) :
    sessInv s2 ∧ s2.attachedMode = s.attachedMode := by
  unfold continueVerb at h
  split at h
  · split at h
    · simp only [Option.some_inj, Prod.mk.injEq] at h
      rw [← h.2]
      exact ⟨hinv, rfl⟩
    · exact waitForStop_inv hinv h
  · split at h
    · simp only [Option.some_inj, Prod.mk.injEq] at h
      rw [← h.2]
      exact ⟨hinv, rfl⟩
    · split at h
      · simp only [Option.some_inj, Prod.mk.injEq] at h
        rw [← h.2]
        exact ⟨hinv, rfl⟩
      · rename_i hguard
        push_neg at hguard
        have hc : s.client = true := by
          cases hb : s.client with
          | false => exact absurd hb (by simpa using hguard.1)
          | true => rfl
        unfold waitForStop at h
        rw [if_neg (by simp [hc])] at h
        have hx := waitLoop_inv (s := { s with state := .running }) hc h
        exact ⟨hx.1, hx.2⟩

theorem handleCmd_inv {resolve : String → String} {s : Sess} {v : VerbInput}
    {r : CmdResult} {s2 : Sess} (hinv : sessInv s)
    (h : handleCmd resolve s v = some (r, s2)) :
    sessInv s2 ∧ (s.attachedMode = false → v.isAttach = false → s2.attachedMode = false) := by
  cases v with
  | start cmd o =>
    simp only [handleCmd, Option.some_inj] at h
    have hsnd : (startSession resolve s cmd o).2 = s2 := congrArg Prod.snd h
    rw [← hsnd]
    have hx := startSession_inv resolve s cmd o hinv
    exact ⟨hx.1, fun ha _ => by rw [hx.2]; exact ha⟩
  | attach cmd o =>
    simp only [handleCmd, Option.some_inj] at h
    have hsnd : (attachSession s cmd o).2 = s2 := congrArg Prod.snd h
    rw [← hsnd]
    exact ⟨attachSession_inv hinv, fun _ hat => by cases hat⟩
  | vars iv o =>
    simp only [handleCmd, Option.some_inj] at h
    have hsnd : (getVariables s iv o).2 = s2 := congrArg Prod.snd h
    rw [← hsnd]
    have hx := getVariables_inv s iv o hinv
    exact ⟨hx.1, fun ha _ => by rw [hx.2]; exact ha⟩
  | stack fi o =>
    simp only [handleCmd, Option.some_inj] at h
    have hsnd : (getStack s fi o).2 = s2 := congrArg Prod.snd h
    rw [← hsnd, getStack_sess]
    exact ⟨hinv, fun ha _ => ha⟩
  | evalExpr e o =>
    simp only [handleCmd, Option.some_inj] at h
    have hsnd : (evalExpression s e o).2 = s2 := congrArg Prod.snd h
    rw [← hsnd, evalExpression_sess s e o]
    exact ⟨hinv, fun ha _ => ha⟩
  | step kind ticks =>
    simp only [handleCmd] at h
    have hx := stepVerb_inv hinv h
    exact ⟨hx.1, fun ha _ => by rw [hx.2]; exact ha⟩
  | cont ticks =>
    simp only [handleCmd] at h
    have hx := continueVerb_inv hinv h
    exact ⟨hx.1, fun ha _ => by rw [hx.2]; exact ha⟩
  | brk f l c o =>
    simp only [handleCmd, Option.some_inj] at h
    have hsnd : (setBreakpointVerb resolve s f l o).2 = s2 := congrArg Prod.snd h
    rw [← hsnd, setBreakpointVerb_sess]
    exact ⟨hinv, fun ha _ => ha⟩
  | source f l o =>
    simp only [handleCmd, Option.some_inj] at h
    have hsnd : (getSourceVerb resolve s f l o).2 = s2 := congrArg Prod.snd h
    rw [← hsnd, getSourceVerb_sess]
    exact ⟨hinv, fun ha _ => ha⟩
  | status loc =>
    simp only [handleCmd, Option.some_inj] at h
    have hsnd : (getStatusAsyncVerb s loc).2 = s2 := congrArg Prod.snd h
    rw [← hsnd]
    exact ⟨hinv, fun ha _ => ha⟩
  | close =>
    simp only [handleCmd, Option.some_inj] at h
    have hsnd : (closeVerb s).2 = s2 := congrArg Prod.snd h
    rw [← hsnd]
    exact ⟨sessInv_of_idle rfl rfl rfl rfl, fun _ _ => rfl⟩

theorem runVerbs_inv {resolve : String → String} {inputs : List VerbInput} {s0 s : Sess}
    (hinv : sessInv s0) (h : runVerbs resolve s0 inputs = some s) :
    sessInv s ∧ ((s0.attachedMode = false ∧ ∀ v ∈ inputs, v.isAttach = false) →
      s.attachedMode = false) := by
  induction inputs generalizing s0 with
  | nil =>
    simp only [runVerbs, Option.some_inj] at h
    rw [← h]
    exact ⟨hinv, fun hp => hp.1⟩
  | cons v rest ih =>
    cases hstep : handleCmd resolve s0 v with
    | none =>
      simp only [runVerbs, hstep] at h
      cases h
    | some p =>
      obtain ⟨r2, s1⟩ := p
      simp only [runVerbs, hstep] at h
      have hx := handleCmd_inv hinv hstep
      have hrest := ih hx.1 h
      refine ⟨hrest.1, fun hp => hrest.2 ⟨hx.2 hp.1 (hp.2 v (by simp)), ?_⟩⟩
      intro w hw
      exact hp.2 w (by simp [hw])

/-- C1 (amended): between completed verbs the session aggregate satisfies: a
non-idle state implies a non-null DAP client (the converse fails after a
start whose connect step threw, which leaves the stale client with state
idle); threadId and frameId are non-null only when state is paused or
terminated (terminated being the one addition the counterexample forces,
since waitForStop does not clear them on termination); attachedMode implies
a non-idle state; and a run without any attach verb ends with attachedMode
false. -/
theorem c1_session_invariant (resolve : String → String) (inputs : List VerbInput)
    (s : Sess) (h : runVerbs resolve initialSess inputs = some s) :
    sessInv s ∧ ((∀ v ∈ inputs, v.isAttach = false) → s.attachedMode = false) := by
  have h0 : sessInv initialSess := sessInv_of_idle rfl rfl rfl rfl
  have hx := runVerbs_inv h0 h
  exact ⟨hx.1, fun hall => hx.2 ⟨rfl, hall⟩⟩

/-- Witness for the amended C1 at the empty verb sequence. -/
theorem c1_witness :
    sessInv initialSess ∧
    ((∀ v ∈ ([] : List VerbInput), v.isAttach = false) → initialSess.attachedMode = false) :=
  c1_session_invariant id [] initialSess rfl

/-- Environment of a start whose DAP connect step throws. -/
def cexStartOracle : StartOracle :=
  ⟨true, none, .connectThrow "ECONNREFUSED", {}, none, none, none⟩

/-- Environment of a start that lands paused at a breakpoint. -/
def pausedStartOracle : StartOracle :=
  ⟨true, none, .ok, { status := some "paused" }, some 1, some 2, none⟩

/-- A poll tick carrying only a drained terminated event. -/
def termTick : Tick := ⟨none, true, []⟩

/-- Counterexample to C1 as stated, at two concrete verb sequences: after a
start whose connect step failed, the stale client is non-null while state is
idle (first invariant clause fails); after a start that paused followed by a
step that drains a terminated event, threadId and frameId stay non-null with
state terminated (second clause fails). -/
theorem c1_counterexample :
    (runVerbs id initialSess [.start ⟨"app.py", none, []⟩ cexStartOracle]
        = some ⟨.idle, true, true, true, none, none, some "app.py", false⟩ ∧
      ¬ specSessionInv ⟨.idle, true, true, true, none, none, some "app.py", false⟩) ∧
    (runVerbs id initialSess
          [.start ⟨"app.py", none, []⟩ pausedStartOracle, .step "over" [termTick]]
        = some ⟨.terminated, true, true, true, some 1, some 2, some "app.py", false⟩ ∧
      ¬ specSessionInv ⟨.terminated, true, true, true, some 1, some 2, some "app.py", false⟩) := by
  refine ⟨⟨rfl, ?_⟩, ⟨rfl, ?_⟩⟩
  · intro hspec
    exact (hspec.1.mp rfl) rfl
  · intro hspec
    have hx := hspec.2 (Or.inl (by simp))
    exact absurd hx (by decide)

end AgentDebugger
